import Mathlib

/-!
# pixel-reader: token line scroller, selection menu and font catalog

A shallow embedding of three parts of the reader:

* `reader/views/token_view/token_line_scroller.h` declares `TokenLineScroller`;
  the member functions are defined in a translation unit that is not part of
  the sources at hand, so their bodies are modelled from the specification
  (sections 4.1 to 4.9) and every such definition says so.
* `reader/views/selection_menu.cpp` is embedded function by function.
* `reader/font_catalog.cpp` is embedded function by function, the file system
  and the configuration macros being parameters.

Unsigned 32-bit values are natural numbers reduced modulo `2^32` where the
source arithmetic can wrap.
-/

namespace PixelReader

/-! ## Token line scroller: data model -/

/-- Modelled from the spec: `DocAddr` (doc_api/doc_addr.h is absent). A document
address is an opaque, totally ordered position; natural numbers are used. -/
abbrev DocAddr := Nat

/-- Modelled from the spec: the token type delivered by `EPubTokenIter`
(epub/epub_reader.h is absent). A token is an atomic unit of the document
stream with its own address span `[start, stop)`; `line_break` marks an
explicit paragraph or line-break marker. -/
structure DocToken where
  text : String
  start : DocAddr
  stop : DocAddr
  line_break : Bool
deriving DecidableEq, Repr

/-- Modelled from the spec: `DisplayLine` (display_line.h is absent). One
wrapped line: its tokens in order and the address range they span. -/
structure DisplayLine where
  tokens : List DocToken
  start : DocAddr
  stop : DocAddr
deriving DecidableEq, Repr

/-- Modelled from the spec: `IndexedDequeue` (util/indexed_dequeue.h is
absent), the stable-index window of section 4.1. `start_index` is the global
index of the first resident item. -/
structure IndexedDequeue (α : Type) where
  start_index : Int
  items : List α

namespace IndexedDequeue

variable {α : Type}

/-- The empty window. -/
def empty : IndexedDequeue α := { start_index := 0, items := [] }

/-- Section 4.1 `min_index`: absent when empty. -/
def min_index (w : IndexedDequeue α) : Option Int :=
  if w.items.isEmpty then none else some w.start_index

/-- Section 4.1 `max_index`: absent when empty. -/
def max_index (w : IndexedDequeue α) : Option Int :=
  if w.items.isEmpty then none else some (w.start_index + w.items.length - 1)

/-- Section 4.1 `get`: the entry if still resident, else absent. -/
def get (w : IndexedDequeue α) (i : Int) : Option α :=
  if w.start_index ≤ i then w.items[(i - w.start_index).toNat]? else none

/-- Section 4.1 `push_back`: insert at the high end; the new index is one more
than the current maximum, and 0 for the first insertion into an empty window. -/
def push_back (w : IndexedDequeue α) (v : α) : IndexedDequeue α × Int :=
  if w.items.isEmpty then ({ start_index := 0, items := [v] }, 0)
  else ({ w with items := w.items ++ [v] }, w.start_index + w.items.length)

/-- Section 4.1 `push_front`: insert at the low end; the new index is one less
than the current minimum, and 0 for the first insertion into an empty window. -/
def push_front (w : IndexedDequeue α) (v : α) : IndexedDequeue α × Int :=
  if w.items.isEmpty then ({ start_index := 0, items := [v] }, 0)
  else ({ start_index := w.start_index - 1, items := v :: w.items }, w.start_index - 1)

/-- Section 4.1 `evict_front`: remove the entry with the lowest index. -/
def evict_front (w : IndexedDequeue α) : IndexedDequeue α :=
  match w.items with
  | [] => w
  | _ :: rest => { start_index := w.start_index + 1, items := rest }

/-- Section 4.1 `evict_back`: remove the entry with the highest index. -/
def evict_back (w : IndexedDequeue α) : IndexedDequeue α :=
  { w with items := w.items.dropLast }

end IndexedDequeue

/-! ## Token line scroller: line builder (section 4.2) -/

/-- Modelled from the spec: the text rendered for a sequence of tokens, their
texts concatenated (section 3, Display Line). -/
def line_text (ts : List DocToken) : String :=
  String.join (ts.map (fun t => t.text))

/-- Modelled from the spec: the Display Line made of the tokens `ts`; its
address range copies the endpoints of the first and the last token. -/
def mk_line (ts : List DocToken) : DisplayLine :=
  { tokens := ts,
    start := match ts.head? with
      | some t => t.start
      | none => 0,
    stop := match ts.getLast? with
      | some t => t.stop
      | none => 0 }

/-- Modelled from the spec: one line of the greedy forward wrap of section 4.2
(the body of the wrap loop is absent from the sources). `acc` is the line
accumulated so far. Before a token is added the predicate is asked whether the
accumulated text plus the token fits; a token offered to an empty line is
placed regardless; a line-breaking token closes the line it is added to.
Returns the closed line and the tokens not consumed. -/
def take_line (line_fits : String → Nat → Bool) (budget : Nat) :
    List DocToken → List DocToken → List DocToken × List DocToken
  | acc, [] => (acc, [])
  | acc, t :: rest =>
    if acc.isEmpty || line_fits (line_text (acc ++ [t])) budget then
      if t.line_break then (acc ++ [t], rest)
      else take_line line_fits budget (acc ++ [t]) rest
    else (acc, t :: rest)

/-- Modelled from the spec: the forward wrap of a token sequence, one
`take_line` per produced line; `fuel` bounds the number of lines. -/
def wrap_lines_fuel (line_fits : String → Nat → Bool) (budget : Nat) :
    Nat → List DocToken → List DisplayLine
  | 0, _ => []
  | _ + 1, [] => []
  | fuel + 1, t :: rest =>
    let r := take_line line_fits budget [] (t :: rest)
    mk_line r.1 :: wrap_lines_fuel line_fits budget fuel r.2

/-- Modelled from the spec: the forward wrap of section 4.2 over a whole token
sequence. Every line consumes a token, so the length of the sequence is enough
fuel (`wrap_lines_fuel_tokens` proves that no token is left over). -/
def wrap_lines (line_fits : String → Nat → Bool) (budget : Nat)
    (toks : List DocToken) : List DisplayLine :=
  wrap_lines_fuel line_fits budget toks.length toks

/-- The token `t` never fits: `line_fits` rejects every candidate line that
holds `t` together with at least one other token. -/
def never_fits (line_fits : String → Nat → Bool) (budget : Nat) (t : DocToken) : Prop :=
  ∀ before after : List DocToken, before ++ after ≠ [] →
    line_fits (line_text (before ++ t :: after)) budget = false

/-! ## Token line scroller: state and operations -/

/-- Modelled from the spec: the state of `TokenLineScroller`. The fields are
those of the class declaration in token_line_scroller.h. The two
`EPubTokenIter` cursors (epub/epub_reader.h is absent) are positions in the
token list `doc` of the reader, `forward_it` just past the last buffered token
and `backward_it` just before the first buffered one (section 3);
`width_budget` is the second argument handed to `line_fits` (section 4.2);
`resync_budget` is the fixed token budget of section 4.4. -/
structure TokenLineScroller where
  doc : List DocToken
  forward_it : Nat
  backward_it : Nat
  line_fits : String → Nat → Bool
  width_budget : Nat
  resync_budget : Nat
  global_first_line : Option Int
  global_last_line : Option Int
  num_lines_lookahead : Nat
  current_line : Int
  lines_buf : IndexedDequeue DisplayLine

/-- Modelled from the spec: the failure surfaced by the token source when it
is positioned at an address outside the document (section 7). -/
inductive ScrollError where
  | InvalidAddress
deriving DecidableEq, Repr

namespace TokenLineScroller

/-- Modelled from the spec: the index recorded for a document boundary, the
extreme resident line, or `current_line` when nothing is resident. -/
def boundary_index (extreme : Option Int) (current : Int) : Int :=
  match extreme with
  | some i => i
  | none => current

/-- Modelled from the spec: `get_more_lines_forward` (section 4.3, body
absent). Pulls tokens at `forward_it`, wraps them with `take_line`, appends
each closed line to the window and advances the cursor past its tokens. Stops
after `num` lines, or when a line is to be started and the token source has
no token left, in which case `global_last_line` is recorded (once: a known
boundary never changes). A line closed by the last token does not yet signal
the end of the document: after initialization both boundaries are absent
(section 4.8). Returns the number of lines produced. -/
def get_more_lines_forward : Nat → TokenLineScroller → Nat × TokenLineScroller
  | 0, s => (0, s)
  | num + 1, s =>
    match s.doc.drop s.forward_it with
    | [] =>
      (0, { s with global_last_line :=
              match s.global_last_line with
              | some l => some l
              | none => some (boundary_index s.lines_buf.max_index s.current_line) })
    | t :: rest =>
      let r := take_line s.line_fits s.width_budget [] (t :: rest)
      let s1 := { s with
        lines_buf := (s.lines_buf.push_back (mk_line r.1)).1,
        forward_it := s.forward_it + r.1.length }
      let out := get_more_lines_forward num s1
      (out.1 + 1, out.2)

/-- Modelled from the spec: the backward scan of section 4.4 from position
`pos`, stopping at a paragraph boundary (just after a line-breaking token), at
the start of the document, or when the token budget is used up. -/
def resync_scan (doc : List DocToken) : Nat → Nat → Nat
  | 0, pos => pos
  | _ + 1, 0 => 0
  | b + 1, p + 1 =>
    match doc[p]? with
    | some t => if t.line_break then p + 1 else resync_scan doc b p
    | none => resync_scan doc b p

/-- Modelled from the spec: the re-synchronization point for a backward read
from cursor `bc` (`0 < bc`): the token just before the cursor is always read. -/
def resync_point (doc : List DocToken) (budget bc : Nat) : Nat :=
  resync_scan doc budget (bc - 1)

/-- Modelled from the spec: address overlap of a line with a resident line. -/
def overlaps_resident (w : IndexedDequeue DisplayLine) (l : DisplayLine) : Bool :=
  w.items.any (fun r => decide (r.start < l.stop) && decide (l.start < r.stop))

/-- Modelled from the spec: the number of tokens held by a list of lines, by
which a cursor moves when the lines enter or leave the window. -/
def tokens_in (ls : List DisplayLine) : Nat :=
  (ls.map (fun l => l.tokens.length)).sum

/-- Modelled from the spec: one backward step of section 4.4. Reads back to
the re-synchronization point, forward-wraps the recovered span, discards from
the front the lines already resident, and pushes the last `need` of the
remaining lines to the front of the window in reverse production order. -/
def back_chunk (need : Nat) (s : TokenLineScroller) : Nat × TokenLineScroller :=
  let r := resync_point s.doc s.resync_budget s.backward_it
  let produced := wrap_lines s.line_fits s.width_budget
    ((s.doc.drop r).take (s.backward_it - r))
  let fresh := produced.dropWhile (overlaps_resident s.lines_buf)
  let keep := fresh.drop (fresh.length - need)
  (keep.length,
   { s with
     lines_buf := keep.reverse.foldl (fun w l => (w.push_front l).1) s.lines_buf,
     backward_it := if fresh.length ≤ need then r else s.backward_it - tokens_in keep })

/-- Modelled from the spec: the loop of `get_more_lines_backward`; `need` is
the number of lines still wanted. At the start of the document
`global_first_line` is recorded (once). -/
def back_loop : Nat → Nat → TokenLineScroller → Nat × TokenLineScroller
  | 0, _, s => (0, s)
  | _ + 1, 0, s => (0, s)
  | fuel + 1, need + 1, s =>
    if s.backward_it = 0 then
      (0, { s with global_first_line :=
              match s.global_first_line with
              | some f => some f
              | none => some (boundary_index s.lines_buf.min_index s.current_line) })
    else
      let c := back_chunk (need + 1) s
      let out := back_loop fuel (need + 1 - c.1) c.2
      (c.1 + out.1, out.2)

/-- Modelled from the spec: `get_more_lines_backward` (section 4.4, body
absent). Every step moves `backward_it` down, so `backward_it + 1` steps reach
the start of the document (`back_loop_shape` proves that `num` lines are
produced unless the first line becomes known). Returns the number of new
lines. -/
def get_more_lines_backward (num : Nat) (s : TokenLineScroller) :
    Nat × TokenLineScroller :=
  back_loop (s.backward_it + 1) num s

/-- Modelled from the spec: eviction at the low end, repositioning
`backward_it` just before the first token that stays buffered. -/
def evict_front_n : Nat → TokenLineScroller → TokenLineScroller
  | 0, s => s
  | n + 1, s =>
    match s.lines_buf.items.head? with
    | none => s
    | some l =>
      evict_front_n n { s with
        lines_buf := s.lines_buf.evict_front,
        backward_it := s.backward_it + l.tokens.length }

/-- Modelled from the spec: eviction at the high end, repositioning
`forward_it` just past the last token that stays buffered. -/
def evict_back_n : Nat → TokenLineScroller → TokenLineScroller
  | 0, s => s
  | n + 1, s =>
    match s.lines_buf.items.getLast? with
    | none => s
    | some l =>
      evict_back_n n { s with
        lines_buf := s.lines_buf.evict_back,
        forward_it := s.forward_it - l.tokens.length }

/-- Modelled from the spec: the eviction of section 4.5. Entries more than
`num_lines_lookahead` below or above the span between `current_line` and
`line_num` are dropped from the ends of the window. -/
def evict_far (line_num : Int) (s : TokenLineScroller) : TokenLineScroller :=
  let lo := min s.current_line line_num - s.num_lines_lookahead
  let hi := max s.current_line line_num + s.num_lines_lookahead
  let s1 := evict_front_n (lo - s.lines_buf.start_index).toNat s
  evict_back_n (s1.lines_buf.start_index + s1.lines_buf.items.length - 1 - hi).toNat s1

/-- Modelled from the spec: the last line of the document is reached, i.e.
known and not above the highest resident index `hi` (section 4.5). -/
def last_reached (s : TokenLineScroller) (hi : Int) : Bool :=
  match s.global_last_line with
  | some l => decide (l ≤ hi)
  | none => false

/-- Modelled from the spec: the first line of the document is reached, i.e.
known and not below the lowest resident index `lo` (section 4.5). -/
def first_reached (s : TokenLineScroller) (lo : Int) : Bool :=
  match s.global_first_line with
  | some f => decide (lo ≤ f)
  | none => false

/-- Modelled from the spec: the forward half of `ensure_lines_around`: call
`get_more_lines_forward` until `line_num` is resident, the last line of the
document is reached, or a call produces nothing. -/
def extend_forward (line_num : Int) : Nat → TokenLineScroller → TokenLineScroller
  | 0, s => s
  | fuel + 1, s =>
    match s.lines_buf.max_index with
    | none => s
    | some hi =>
      if line_num ≤ hi then s
      else if last_reached s hi then s
      else
        let out := get_more_lines_forward (line_num - hi).toNat s
        if out.1 = 0 then out.2 else extend_forward line_num fuel out.2

/-- Modelled from the spec: the backward half of `ensure_lines_around`. -/
def extend_backward (line_num : Int) : Nat → TokenLineScroller → TokenLineScroller
  | 0, s => s
  | fuel + 1, s =>
    match s.lines_buf.min_index with
    | none => s
    | some lo =>
      if lo ≤ line_num then s
      else if first_reached s lo then s
      else
        let out := get_more_lines_backward (lo - line_num).toNat s
        if out.1 = 0 then out.2 else extend_backward line_num fuel out.2

/-- Modelled from the spec: `ensure_lines_around` (section 4.5, body absent).
No-op when `line_num` is resident; otherwise the window is grown towards
`line_num` and far-away entries are evicted. Each extension call adds a line
or ends the loop, so the distance to `line_num` is enough fuel
(`ensure_reaches` proves that the target is resident afterwards unless the
boundary on its side is known). -/
def ensure_lines_around (line_num : Int) (s : TokenLineScroller) : TokenLineScroller :=
  match s.lines_buf.get line_num with
  | some _ => s
  | none =>
    match s.lines_buf.min_index, s.lines_buf.max_index with
    | some lo, some hi =>
      if hi < line_num then
        evict_far line_num (extend_forward line_num (line_num - hi).toNat s)
      else if line_num < lo then
        evict_far line_num (extend_backward line_num (lo - line_num).toNat s)
      else s
    | _, _ => s

/-- Modelled from the spec: `target` lies beyond a known document boundary
(section 4.6). -/
def beyond_boundary (s : TokenLineScroller) (target : Int) : Bool :=
  (match s.global_last_line with
   | some l => decide (l < target)
   | none => false) ||
  (match s.global_first_line with
   | some f => decide (target < f)
   | none => false)

/-- Modelled from the spec: `get_line_relative` (section 4.6, body absent):
the line at `current_line + offset`, absent beyond a known boundary. The
second component is the state after the call. -/
def get_line_relative (offset : Int) (s : TokenLineScroller) :
    Option DisplayLine × TokenLineScroller :=
  let target := s.current_line + offset
  let s1 := ensure_lines_around target s
  (if beyond_boundary s1 target then none else s1.lines_buf.get target, s1)

/-- Modelled from the spec: `get_line_number` (section 4.7, body absent):
returns `current_line`. -/
def get_line_number (s : TokenLineScroller) : Int := s.current_line

/-- Modelled from the spec: a target line clamped to the boundaries discovered
so far (section 4.7). -/
def clamp_to_known (s : TokenLineScroller) (target : Int) : Int :=
  let t := match s.global_last_line with
    | some l => min target l
    | none => target
  match s.global_first_line with
  | some f => max t f
  | none => t

/-- Modelled from the spec: `seek_lines_relative` (section 4.7, body absent):
provisional target, clamp to the known boundaries, `ensure_lines_around`,
clamp again, commit. -/
def seek_lines_relative (offset : Int) (s : TokenLineScroller) : TokenLineScroller :=
  let target := clamp_to_known s (s.current_line + offset)
  let s1 := ensure_lines_around target s
  { s1 with current_line := clamp_to_known s1 target }

/-- Modelled from the spec: repositioning the token source at an address: the
position of the first token that ends after `address`; absent when the address
is outside the document. -/
def position_at : List DocToken → DocAddr → Option Nat
  | [], _ => none
  | t :: rest, address =>
    if address < t.stop then some 0
    else (position_at rest address).map (fun p => p + 1)

/-- Modelled from the spec: `clear_buffer` (declared, body absent): discard
the window and forget both boundaries. -/
def clear_buffer (s : TokenLineScroller) : TokenLineScroller :=
  { s with
    lines_buf := IndexedDequeue.empty,
    global_first_line := none,
    global_last_line := none,
    current_line := 0 }

/-- Modelled from the spec: `initialize_buffer_at` (declared, body absent):
both cursors are repositioned at `address` and one line is materialized. -/
def initialize_buffer_at (address : DocAddr) (s : TokenLineScroller) :
    Except ScrollError TokenLineScroller :=
  match position_at s.doc address with
  | none => Except.error ScrollError.InvalidAddress
  | some p =>
    Except.ok (get_more_lines_forward 1 { s with forward_it := p, backward_it := p }).2

/-- Modelled from the spec: `seek_to_address` (section 4.8, body absent). -/
def seek_to_address (address : DocAddr) (s : TokenLineScroller) :
    Except ScrollError TokenLineScroller :=
  initialize_buffer_at address (clear_buffer s)

/-- The state `s2` continues `s1`: same focus and lookahead, every boundary
known in `s1` is known with the same value in `s2`, and every line resident in
`s1` is resident, unchanged, at the same index in `s2`. -/
def grows_to (s1 s2 : TokenLineScroller) : Prop :=
  s2.current_line = s1.current_line ∧
  s2.num_lines_lookahead = s1.num_lines_lookahead ∧
  (∀ l, s1.global_last_line = some l → s2.global_last_line = some l) ∧
  (∀ f, s1.global_first_line = some f → s2.global_first_line = some f) ∧
  (∀ i x, s1.lines_buf.get i = some x → s2.lines_buf.get i = some x)

/-- Every boundary known in `s2` was already known in `s1` with that value, or
lies on the outer side of every line resident in `s1`. -/
def bounds_outside (s1 s2 : TokenLineScroller) : Prop :=
  (∀ l, s2.global_last_line = some l →
    s1.global_last_line = some l ∨ ∀ i x, s1.lines_buf.get i = some x → i ≤ l) ∧
  (∀ f, s2.global_first_line = some f →
    s1.global_first_line = some f ∨ ∀ i x, s1.lines_buf.get i = some x → f ≤ i)

/-- The focus is sound: the current line is resident and not beyond a known
boundary. This holds after `seek_to_address` and is kept by
`get_line_relative` and by every seek whose target exists. -/
def focused (s : TokenLineScroller) : Prop :=
  (∃ L, s.lines_buf.get s.current_line = some L) ∧
  beyond_boundary s s.current_line = false

/-- Modelled from the spec: `first_line_number` (section 4.9, body absent). -/
def first_line_number (s : TokenLineScroller) : Option Int := s.global_first_line

/-- Modelled from the spec: `last_line_number` (section 4.9, body absent). -/
def last_line_number (s : TokenLineScroller) : Option Int := s.global_last_line

end TokenLineScroller

/-! ## Token line scroller: the example document of the specification -/

/-- A word token occupying the address span `[i, i + 1)`. -/
def word_token (text : String) (i : Nat) : DocToken :=
  { text := text, start := i, stop := i + 1, line_break := false }

/-- The tokens The / quick / brown / fox / jumps. -/
def fox_doc : List DocToken :=
  [word_token "The" 0, word_token "quick" 1, word_token "brown" 2,
   word_token "fox" 3, word_token "jumps" 4]

/-- A fit predicate: the text fits when it has at most `budget` characters.
With budget 10 it accepts at most two words of `fox_doc` per line. -/
def fits_chars (text : String) (budget : Nat) : Bool := decide (text.length ≤ budget)

/-- A scroller over `doc` before its buffer is initialized. -/
def blank_scroller (doc : List DocToken) (line_fits : String → Nat → Bool)
    (budget lookahead : Nat) : TokenLineScroller :=
  { doc := doc, forward_it := 0, backward_it := 0, line_fits := line_fits,
    width_budget := budget, resync_budget := 64, global_first_line := none,
    global_last_line := none, num_lines_lookahead := lookahead, current_line := 0,
    lines_buf := IndexedDequeue.empty }

/-- The scroller over `fox_doc` right after its buffer was initialized at
address 0: one materialized line, `The quick`, at global index 0. -/
def fox_scroller : TokenLineScroller :=
  (TokenLineScroller.get_more_lines_forward 1 (blank_scroller fox_doc fits_chars 10 0)).2

/-- A predicate that rejects every text: every token is wider than the budget. -/
def fits_nothing (_ : String) (_ : Nat) : Bool := false

/-! ## Selection menu (reader/views/selection_menu.cpp) -/

/-- The modulus of `uint32_t` arithmetic. -/
def U32 : Nat := 4294967296

/-- Reduction of a natural number to `uint32_t`. -/
def u32 (n : Nat) : Nat := n % U32

/-- The conversion `static_cast<int>` of a `uint32_t` value (two's complement). -/
def to_int (n : Nat) : Int := if n < 2147483648 then (n : Int) else (n : Int) - 4294967296

/-- The conversion of a non-negative `int` to `uint32_t`. -/
def of_int (z : Int) : Nat := (z % 4294967296).toNat

/-- The keys the menu distinguishes. `SW_BTN_*` are macros of sys/keymap.h
(absent); they are the case labels of one `switch`, hence pairwise distinct
`SDLKey` values. Every other key is `other`. -/
inductive SDLKey where
  | SW_BTN_UP
  | SW_BTN_DOWN
  | SW_BTN_LEFT
  | SW_BTN_RIGHT
  | SW_BTN_L1
  | SW_BTN_R1
  | SW_BTN_A
  | SW_BTN_B
  | other (code : Nat)
deriving DecidableEq, Repr

/-- An invocation of one of the user callbacks held by the menu. The callbacks
are assumed not to call back into the menu, so an invocation is recorded and
has no other effect on the menu. -/
inductive Callback where
  | on_focus (pos : Nat)
  | on_selection (pos : Nat)
  | default_on_keypress (key : SDLKey)
deriving DecidableEq, Repr

/-- What `render` draws on the destination surface: the background fill, and
per displayed row the highlight bar and the text. `row` is the loop counter
`i`, which fixes the pixel position `y`. -/
inductive DrawOp where
  | clear_screen
  | highlight (row : Nat) (global_i : Nat)
  | text (row : Nat) (global_i : Nat) (entry : String) (is_highlighted : Bool)
deriving DecidableEq, Repr

/-- The state of `SelectionMenu`. `has_on_selection`, `has_on_focus` and
`has_default_on_keypress` tell whether the `std::function` member holds a
target; `calls` records the callback invocations made so far. The scroll
throttle (util/throttled.h, absent) is a parameter: its state has type `σ`.
`cursor_pos`, `scroll_pos` and `num_display_lines` are `uint32_t`. -/
structure SelectionMenu (σ : Type) where
  entries : List String
  styling_sub_id : Nat
  num_display_lines : Nat
  cursor_pos : Nat
  scroll_pos : Nat
  needs_render : Bool
  _is_done : Bool
  close_on_select : Bool
  has_on_selection : Bool
  has_on_focus : Bool
  has_default_on_keypress : Bool
  scroll_throttle : σ
  calls : List Callback

namespace SelectionMenu

variable {σ : Type}

/-- Invoke `on_focus(cursor_pos)` when the callback is set. -/
def call_on_focus (m : SelectionMenu σ) : SelectionMenu σ :=
  if m.has_on_focus then { m with calls := m.calls ++ [Callback.on_focus m.cursor_pos] } else m

/-- The overload `set_cursor_pos(uint32_t new_cursor_pos)`. The `int`
arithmetic of the scroll position is exact whenever there are fewer than
`2^31` entries; it is computed in unbounded integers. -/
def set_cursor_pos (m : SelectionMenu σ) (new_cursor_pos : Nat) : SelectionMenu σ :=
  let new_cursor_pos := if new_cursor_pos ≥ m.entries.length then 0 else new_cursor_pos
  let m1 := call_on_focus { m with cursor_pos := new_cursor_pos }
  let scroll :=
    if m.entries.length ≤ m.num_display_lines then 0
    else of_int (max 0 (to_int new_cursor_pos - (Int.tdiv (to_int m.num_display_lines) 2 - 1)))
  { m1 with scroll_pos := scroll, needs_render := true }

/-- The method `set_entries`. -/
def set_entries (m : SelectionMenu σ) (new_entries : List String) : SelectionMenu σ :=
  { set_cursor_pos { m with entries := new_entries } 0 with needs_render := true }

/-- The method `set_on_selection`; `callable` tells whether the function
object passed holds a target. -/
def set_on_selection (m : SelectionMenu σ) (callable : Bool) : SelectionMenu σ :=
  { m with has_on_selection := callable }

/-- The method `set_on_focus`. -/
def set_on_focus (m : SelectionMenu σ) (callable : Bool) : SelectionMenu σ :=
  { m with has_on_focus := callable }

/-- The method `set_default_on_keypress`. -/
def set_default_on_keypress (m : SelectionMenu σ) (callable : Bool) : SelectionMenu σ :=
  { m with has_default_on_keypress := callable }

/-- The method `set_close_on_select`. -/
def set_close_on_select (m : SelectionMenu σ) : SelectionMenu σ :=
  { m with close_on_select := true }

/-- The search loop of `set_cursor_pos(const std::string &)`: the first index
`i`, counted from `i`, whose entry equals `entry`. -/
def find_entry (entry : String) : List String → Nat → Option Nat
  | [], _ => none
  | e :: rest, i => if e = entry then some i else find_entry entry rest (i + 1)

/-- The overload `set_cursor_pos(const std::string &entry)`. The loop counter
is a `uint32_t`, so only indices below `2^32` are ever visited. (With `2^32`
or more entries and no match among the first `2^32` the source loop does not
end; the model leaves the menu unchanged there.) -/
def set_cursor_pos_entry (m : SelectionMenu σ) (entry : String) : SelectionMenu σ :=
  match find_entry entry m.entries 0 with
  | some i => if i < U32 then set_cursor_pos m i else m
  | none => m

/-- The method `close`. -/
def close (m : SelectionMenu σ) : SelectionMenu σ :=
  { m with _is_done := true }

/-- The row loop of `render`, `k` iterations from loop counter `i`. -/
def render_rows (m : SelectionMenu σ) : Nat → Nat → List DrawOp
  | 0, _ => []
  | k + 1, i =>
    let global_i := u32 (i + m.scroll_pos)
    if global_i ≥ m.entries.length then []
    else
      let is_highlighted := decide (global_i = m.cursor_pos)
      (if is_highlighted then [DrawOp.highlight i global_i] else []) ++
        DrawOp.text i global_i (m.entries.getD global_i "") is_highlighted ::
        render_rows m k (i + 1)

/-- The method `render`: the returned flag, what was drawn, and the state
afterwards. -/
def render (m : SelectionMenu σ) (force_render : Bool) :
    Bool × List DrawOp × SelectionMenu σ :=
  if !m.needs_render && !force_render then (false, [], m)
  else
    (true, DrawOp.clear_screen :: render_rows m m.num_display_lines 0,
     { m with needs_render := false })

/-- The method `is_done`. -/
def is_done (m : SelectionMenu σ) : Bool := m._is_done

/-- The value of `entries.size() - 1` in `size_t` arithmetic of `size_bits`
bits (32 on the handheld, 64 on a desktop build). -/
def size_minus_one (size_bits : Nat) (m : SelectionMenu σ) : Nat :=
  (m.entries.length + 2 ^ size_bits - 1) % 2 ^ size_bits

/-- The method `on_move_down`. -/
def on_move_down (size_bits : Nat) (m : SelectionMenu σ) (step : Nat) : SelectionMenu σ :=
  if m.cursor_pos < size_minus_one size_bits m then
    let cursor := min (u32 (m.cursor_pos + step)) (u32 (u32 m.entries.length + U32 - 1))
    let scroll :=
      if cursor ≥ u32 (m.scroll_pos + m.num_display_lines) then
        u32 (u32 (cursor + U32 - u32 m.num_display_lines) + 1)
      else m.scroll_pos
    { call_on_focus { m with cursor_pos := cursor, scroll_pos := scroll } with
      needs_render := true }
  else m

/-- The method `on_move_up`. -/
def on_move_up (m : SelectionMenu σ) (step : Nat) : SelectionMenu σ :=
  if m.cursor_pos > 0 then
    let cursor := if m.cursor_pos ≤ step then 0 else m.cursor_pos - step
    { call_on_focus { m with cursor_pos := cursor, scroll_pos := min m.scroll_pos cursor } with
      needs_render := true }
  else m

/-- The method `on_select_entry`. -/
def on_select_entry (m : SelectionMenu σ) : SelectionMenu σ :=
  let m1 :=
    if !m.entries.isEmpty && m.has_on_selection then
      { m with calls := m.calls ++ [Callback.on_selection m.cursor_pos] }
    else m
  if m1.close_on_select then { m1 with _is_done := true } else m1

/-- The method `on_keypress`. -/
def on_keypress (size_bits : Nat) (m : SelectionMenu σ) (key : SDLKey) : SelectionMenu σ :=
  match key with
  | SDLKey.SW_BTN_UP => on_move_up m 1
  | SDLKey.SW_BTN_DOWN => on_move_down size_bits m 1
  | SDLKey.SW_BTN_LEFT => on_move_up m (m.num_display_lines / 2)
  | SDLKey.SW_BTN_L1 => on_move_up m (m.num_display_lines / 2)
  | SDLKey.SW_BTN_RIGHT => on_move_down size_bits m (m.num_display_lines / 2)
  | SDLKey.SW_BTN_R1 => on_move_down size_bits m (m.num_display_lines / 2)
  | SDLKey.SW_BTN_A => on_select_entry m
  | SDLKey.SW_BTN_B => { m with _is_done := true }
  | SDLKey.other code =>
    if m.has_default_on_keypress then
      { m with calls := m.calls ++ [Callback.default_on_keypress (SDLKey.other code)] }
    else m

/-- The keys `on_keyheld` forwards: the first six case labels of its switch. -/
def is_scroll_key : SDLKey → Bool
  | SDLKey.SW_BTN_UP => true
  | SDLKey.SW_BTN_DOWN => true
  | SDLKey.SW_BTN_LEFT => true
  | SDLKey.SW_BTN_RIGHT => true
  | SDLKey.SW_BTN_L1 => true
  | SDLKey.SW_BTN_R1 => true
  | _ => false

/-- The method `on_keyheld`. `throttle` is the call operator of the scroll
throttle: from its state and the held time it yields the verdict and its next
state. -/
def on_keyheld (size_bits : Nat) (throttle : σ → Nat → Bool × σ) (m : SelectionMenu σ)
    (key : SDLKey) (held_time_ms : Nat) : SelectionMenu σ :=
  if is_scroll_key key then
    let verdict := throttle m.scroll_throttle held_time_ms
    let m1 := { m with scroll_throttle := verdict.2 }
    if verdict.1 then on_keypress size_bits m1 key else m1
  else m

/-- The operations a client performs on a menu. -/
inductive Op where
  | set_entries (new_entries : List String)
  | set_cursor_pos (new_cursor_pos : Nat)
  | set_cursor_pos_entry (entry : String)
  | on_keypress (key : SDLKey)
  | on_keyheld (key : SDLKey) (held_time_ms : Nat)
  | render (force_render : Bool)
  | close
deriving DecidableEq, Repr

/-- Whether an operation sets the done flag of a menu whose `close_on_select`
flag is `close_on_select`: `close()`, a press of B, or a press of A when the
menu closes on selection. -/
def Op.closes (close_on_select : Bool) : Op → Bool
  | Op.close => true
  | Op.on_keypress SDLKey.SW_BTN_B => true
  | Op.on_keypress SDLKey.SW_BTN_A => close_on_select
  | _ => false

/-- The effect of one operation on the menu. -/
def step (size_bits : Nat) (throttle : σ → Nat → Bool × σ) (m : SelectionMenu σ) :
    Op → SelectionMenu σ
  | Op.set_entries es => set_entries m es
  | Op.set_cursor_pos n => set_cursor_pos m n
  | Op.set_cursor_pos_entry e => set_cursor_pos_entry m e
  | Op.on_keypress k => on_keypress size_bits m k
  | Op.on_keyheld k t => on_keyheld size_bits throttle m k t
  | Op.render f => (render m f).2.2
  | Op.close => close m

/-- The effect of a sequence of operations, performed in order. -/
def run (size_bits : Nat) (throttle : σ → Nat → Bool × σ) (m : SelectionMenu σ)
    (ops : List Op) : SelectionMenu σ :=
  ops.foldl (step size_bits throttle) m

/-- The cursor bound: no entries, or the cursor is a valid index. -/
def cursor_ok (m : SelectionMenu σ) : Prop :=
  m.entries = [] ∨ m.cursor_pos < m.entries.length

/-- The cursor row lies in the displayed window of rows. -/
def cursor_visible (m : SelectionMenu σ) : Prop :=
  m.scroll_pos ≤ m.cursor_pos ∧ m.cursor_pos < m.scroll_pos + m.num_display_lines

instance cursor_ok_decidable (m : SelectionMenu σ) : Decidable (cursor_ok m) := by
  unfold cursor_ok; infer_instance

instance cursor_visible_decidable (m : SelectionMenu σ) : Decidable (cursor_visible m) := by
  unfold cursor_visible; infer_instance

/-- A menu of ten entries showing two rows, the cursor on entry 5 in the
second displayed row. -/
def ten_entry_menu : SelectionMenu Unit :=
  { entries := ["e0", "e1", "e2", "e3", "e4", "e5", "e6", "e7", "e8", "e9"],
    styling_sub_id := 0, num_display_lines := 2, cursor_pos := 5, scroll_pos := 4,
    needs_render := false, _is_done := false, close_on_select := true,
    has_on_selection := true, has_on_focus := true, has_default_on_keypress := true,
    scroll_throttle := (), calls := [] }

/-- A throttle that accepts every held time. -/
def always_accept (u : Unit) (_ : Nat) : Bool × Unit := (true, u)

/-- The registry of change callbacks kept by `SystemStyling`
(reader/system_styling.h, absent) is a parameter: its state has type `ρ`.
`subscribe_to_changes` takes the callback and yields the subscription id and
the next state of the registry; `unsubscribe_from_changes` takes an id. A
callback is given by its effect on the menu captured by its closure. -/
structure StylingOps (ρ σ : Type) where
  subscribe_to_changes : ρ → (SelectionMenu σ → SelectionMenu σ) → Nat × ρ
  unsubscribe_from_changes : ρ → Nat → ρ

/-- The members the constructor's initializer list does not mention: they
take the default member initializers of selection_menu.h (absent), which are
a parameter. -/
structure MemberDefaults where
  cursor_pos : Nat
  scroll_pos : Nat
  needs_render : Bool
  _is_done : Bool
  close_on_select : Bool
  has_on_selection : Bool
  has_on_focus : Bool
  has_default_on_keypress : Bool

/-- The lambda the constructor registers: `[this]() { needs_render = true; }`. -/
def on_styling_changed (m : SelectionMenu σ) : SelectionMenu σ :=
  { m with needs_render := true }

/-- The constructor `SelectionMenu(entries, styling, font)`: the menu built
and the state of the styling registry afterwards. `num_display_lines` is the
value of `(SCREEN_HEIGHT - line_padding) / (line_height + line_padding)`,
whose operands come from absent headers, and `scroll_throttle` is the throttle
constructed with `(250, 100)`; both are parameters. No callback has been
invoked yet. -/
def construct {ρ : Type} (ops : StylingOps ρ σ) (styling : ρ) (defaults : MemberDefaults)
    (entries : List String) (num_display_lines : Nat) (scroll_throttle : σ) :
    SelectionMenu σ × ρ :=
  let sub := ops.subscribe_to_changes styling on_styling_changed
  ({ entries := entries,
     styling_sub_id := sub.1,
     num_display_lines := num_display_lines,
     cursor_pos := defaults.cursor_pos,
     scroll_pos := defaults.scroll_pos,
     needs_render := defaults.needs_render,
     _is_done := defaults._is_done,
     close_on_select := defaults.close_on_select,
     has_on_selection := defaults.has_on_selection,
     has_on_focus := defaults.has_on_focus,
     has_default_on_keypress := defaults.has_default_on_keypress,
     scroll_throttle := scroll_throttle,
     calls := [] },
   sub.2)

/-- The delegating constructor `SelectionMenu(styling, font)`. -/
def construct_no_entries {ρ : Type} (ops : StylingOps ρ σ) (styling : ρ)
    (defaults : MemberDefaults) (num_display_lines : Nat) (scroll_throttle : σ) :
    SelectionMenu σ × ρ :=
  construct ops styling defaults [] num_display_lines scroll_throttle

/-- The destructor `~SelectionMenu`: the state of the styling registry
afterwards. -/
def destruct {ρ : Type} (ops : StylingOps ρ σ) (m : SelectionMenu σ) (styling : ρ) : ρ :=
  ops.unsubscribe_from_changes styling m.styling_sub_id

/-- A live subscription of the example registry. -/
structure Subscription (σ : Type) where
  id : Nat
  callback : SelectionMenu σ → SelectionMenu σ

/-- An example registry: its state is the next free id and the live
subscriptions; subscribing hands out the next id, unsubscribing drops the
subscriptions with the given id. -/
def list_registry : StylingOps (Nat × List (Subscription σ)) σ :=
  { subscribe_to_changes := fun st cb =>
      (st.1, (st.1 + 1, st.2 ++ [{ id := st.1, callback := cb }])),
    unsubscribe_from_changes := fun st id =>
      (st.1, st.2.filter (fun sub => decide (sub.id ≠ id))) }

/-- A change of the styling: every live callback is fired on the menu. -/
def fire_changes (subs : List (Subscription σ)) (m : SelectionMenu σ) : SelectionMenu σ :=
  subs.foldl (fun menu sub => sub.callback menu) m

/-- Member defaults of a menu that starts rendered, open and at the top. -/
def rendered_defaults : MemberDefaults :=
  { cursor_pos := 0, scroll_pos := 0, needs_render := false, _is_done := false,
    close_on_select := false, has_on_selection := false, has_on_focus := false,
    has_default_on_keypress := false }

end SelectionMenu

/-! ## Font catalog (reader/font_catalog.cpp) -/

/-- An entry of `directory_listing` (sys/filesystem.h, absent). -/
structure DirEntry where
  name : String
  is_dir : Bool

/-- What `font_catalog.cpp` takes from outside: the macros of config.h, the
file system, and the path and string helpers. All are absent from the sources
and are parameters. The file system may differ from call to call. -/
structure FontEnv where
  FONT_DIR : String
  EXTRA_FONT_DIR : String
  CUSTOM_FONT_DIR : String
  EXTRA_FONTS_LIST : List String
  DEFAULT_FONT_NAME : String
  directory_listing : String → List DirEntry
  path_exists : String → Bool
  path_extension : String → String
  path_join : String → String → String
  to_lower : String → String

namespace FontCatalog

/-- The lambda `test_font`. -/
def test_font (env : FontEnv) (file_path : String) : Bool :=
  let norm_ext := env.to_lower (env.path_extension file_path)
  env.path_exists file_path && (norm_ext == ".ttf" || norm_ext == ".ttc")

/-- The function `get_fonts_in_dir`: appends the fonts of one directory. -/
def get_fonts_in_dir (env : FontEnv) (font_dir : String) (available_fonts : List String) :
    List String :=
  (env.directory_listing font_dir).foldl
    (fun acc entry =>
      let path := env.path_join font_dir entry.name
      if !entry.is_dir && test_font env path then acc ++ [path] else acc)
    available_fonts

/-- The loop of `discover_fonts` over `EXTRA_FONTS`. -/
def add_extra_fonts (env : FontEnv) (available_fonts : List String) : List String :=
  env.EXTRA_FONTS_LIST.foldl
    (fun acc path => if test_font env path then acc ++ [path] else acc)
    available_fonts

/-- What a discovery run collects, starting from the list `available_fonts`. -/
def scan_fonts (env : FontEnv) (available_fonts : List String) : List String :=
  add_extra_fonts env
    (get_fonts_in_dir env env.CUSTOM_FONT_DIR
      (get_fonts_in_dir env env.EXTRA_FONT_DIR
        (get_fonts_in_dir env env.FONT_DIR available_fonts)))

/-- The function `discover_fonts`. The argument is the global
`available_fonts`; the result is its value on return, or the message of the
`std::runtime_error` thrown (the global is then still empty). -/
def discover_fonts (env : FontEnv) (available_fonts : List String) :
    Except String (List String) :=
  if available_fonts.length ≠ 0 then Except.ok available_fonts
  else
    let found := scan_fonts env available_fonts
    if found.isEmpty then Except.error "No fonts found" else Except.ok found

/-- The position `std::find` reports: the first index holding `font_name`, the
length when there is none. -/
def find_pos (font_name : String) : List String → Nat
  | [] => 0
  | f :: rest => if f = font_name then 0 else find_pos font_name rest + 1

/-- The function `get_font_index`: the index as `int`, or `-1`, and the global
list on return. -/
def get_font_index (env : FontEnv) (available_fonts : List String) (font_name : String) :
    Except String (Int × List String) :=
  match discover_fonts env available_fonts with
  | Except.error e => Except.error e
  | Except.ok fonts =>
    let i := u32 (find_pos font_name fonts)
    if i ≥ fonts.length then Except.ok (-1, fonts) else Except.ok (to_int i, fonts)

/-- The function `get_valid_font_name`. -/
def get_valid_font_name (env : FontEnv) (available_fonts : List String)
    (preferred_font_name : String) : Except String (String × List String) :=
  match get_font_index env available_fonts preferred_font_name with
  | Except.error e => Except.error e
  | Except.ok (i, fonts) =>
    if i < 0 then
      match get_font_index env fonts env.DEFAULT_FONT_NAME with
      | Except.error e => Except.error e
      | Except.ok (j, fonts2) =>
        let k : Int := if j < 0 then 0 else j
        Except.ok (fonts2.getD k.toNat "", fonts2)
    else Except.ok (fonts.getD i.toNat "", fonts)

/-- The function `get_prev_font_name`; the index is computed in `size_t`
arithmetic of `size_bits` bits. -/
def get_prev_font_name (size_bits : Nat) (env : FontEnv) (available_fonts : List String)
    (font_name : String) : Except String (String × List String) :=
  match get_font_index env available_fonts font_name with
  | Except.error e => Except.error e
  | Except.ok (i, fonts) =>
    let sum := ((i % 2 ^ size_bits).toNat + fonts.length) % 2 ^ size_bits
    let idx := ((sum + 2 ^ size_bits - 1) % 2 ^ size_bits) % fonts.length
    Except.ok (fonts.getD idx "", fonts)

/-- The function `get_next_font_name`. -/
def get_next_font_name (size_bits : Nat) (env : FontEnv) (available_fonts : List String)
    (font_name : String) : Except String (String × List String) :=
  match get_font_index env available_fonts font_name with
  | Except.error e => Except.error e
  | Except.ok (i, fonts) =>
    let idx := (((i + 1) % 2 ^ size_bits).toNat) % fonts.length
    Except.ok (fonts.getD idx "", fonts)

/-- A file system with one font directory holding a font, a text file and a
sub-directory; no extra fonts. -/
def sample_env : FontEnv :=
  { FONT_DIR := "fonts", EXTRA_FONT_DIR := "extra", CUSTOM_FONT_DIR := "custom",
    EXTRA_FONTS_LIST := [], DEFAULT_FONT_NAME := "fonts/a.TTF",
    directory_listing := fun dir =>
      if dir = "fonts" then
        [{ name := "a.TTF", is_dir := false }, { name := "b.txt", is_dir := false },
         { name := "sub.ttf", is_dir := true }]
      else [],
    path_exists := fun _ => true,
    path_extension := fun p =>
      if p = "fonts/a.TTF" then ".TTF" else if p = "fonts/sub.ttf" then ".ttf" else ".txt",
    path_join := fun dir name => dir ++ "/" ++ name,
    to_lower := fun s => if s = ".TTF" then ".ttf" else s }

/-- A list of `2^31 + 1` fonts: `2^31` times the font `a`, then the font `p`
(such a list needs a `size_t` of 64 bits). -/
def many_fonts : List String := List.replicate 2147483648 "a" ++ ["p"]

/-- A file system without any font. -/
def empty_env : FontEnv :=
  { sample_env with directory_listing := fun _ => [] }

end FontCatalog

/-! ## Line builder: progress and completeness -/

theorem take_line_append (line_fits : String → Nat → Bool) (budget : Nat)
    (toks acc : List DocToken) :
    (take_line line_fits budget acc toks).1 ++ (take_line line_fits budget acc toks).2
      = acc ++ toks := by
  induction toks generalizing acc with
  | nil => simp [take_line]
  | cons t rest ih =>
    unfold take_line
    split
    · split
      · simp
      · rw [ih]; simp
    · rfl

theorem take_line_length_ge (line_fits : String → Nat → Bool) (budget : Nat)
    (toks acc : List DocToken) :
    acc.length ≤ (take_line line_fits budget acc toks).1.length := by
  induction toks generalizing acc with
  | nil => simp [take_line]
  | cons t rest ih =>
    unfold take_line
    split
    · split
      · simp
      · have := ih (acc ++ [t]); simp at this; omega
    · exact Nat.le_refl _

theorem take_line_first_pos (line_fits : String → Nat → Bool) (budget : Nat)
    (t : DocToken) (rest : List DocToken) :
    0 < (take_line line_fits budget [] (t :: rest)).1.length := by
  unfold take_line
  simp only [List.isEmpty_nil, Bool.true_or, if_true, List.nil_append]
  split
  · simp
  · have := take_line_length_ge line_fits budget rest [t]; simp at this; omega

theorem take_line_rest_length (line_fits : String → Nat → Bool) (budget : Nat)
    (t : DocToken) (rest : List DocToken) :
    (take_line line_fits budget [] (t :: rest)).2.length < (t :: rest).length := by
  have h1 := take_line_append line_fits budget (t :: rest) []
  have h2 := take_line_first_pos line_fits budget t rest
  have h3 := congrArg List.length h1
  simp only [List.length_append, List.nil_append] at h3
  omega

theorem wrap_lines_fuel_tokens (line_fits : String → Nat → Bool) (budget : Nat)
    (fuel : Nat) (toks : List DocToken) (h : toks.length ≤ fuel) :
    ((wrap_lines_fuel line_fits budget fuel toks).map (fun l => l.tokens)).flatten = toks := by
  induction fuel generalizing toks with
  | zero =>
    have : toks = [] := List.length_eq_zero.mp (Nat.le_zero.mp h)
    subst this; simp [wrap_lines_fuel]
  | succ n ih =>
    cases toks with
    | nil => simp [wrap_lines_fuel]
    | cons t rest =>
      simp only [wrap_lines_fuel, List.map_cons, List.flatten_cons]
      have hlt := take_line_rest_length line_fits budget t rest
      rw [ih _ (by simp at h hlt ⊢; omega)]
      simpa [mk_line] using take_line_append line_fits budget (t :: rest) []

theorem wrap_lines_fuel_nonempty (line_fits : String → Nat → Bool) (budget : Nat)
    (fuel : Nat) (toks : List DocToken) :
    ∀ l ∈ wrap_lines_fuel line_fits budget fuel toks, l.tokens ≠ [] := by
  induction fuel generalizing toks with
  | zero => simp [wrap_lines_fuel]
  | succ n ih =>
    cases toks with
    | nil => simp [wrap_lines_fuel]
    | cons t rest =>
      intro l hl
      simp only [wrap_lines_fuel, List.mem_cons] at hl
      rcases hl with rfl | hl
      · have := take_line_first_pos line_fits budget t rest
        intro h0
        simp [mk_line] at h0
        rw [h0] at this; simp at this
      · exact ih _ l hl

/-! ## Window: resident entries survive insertion and far eviction -/

namespace IndexedDequeue

variable {α : Type}

theorem get_eq_some_iff (w : IndexedDequeue α) (i : Int) (x : α) :
    w.get i = some x ↔ w.start_index ≤ i ∧ w.items[(i - w.start_index).toNat]? = some x := by
  unfold get
  split <;> simp [*]

theorem get_push_back (w : IndexedDequeue α) (v : α) (i : Int) (x : α)
    (h : w.get i = some x) : (w.push_back v).1.get i = some x := by
  rw [get_eq_some_iff] at h
  obtain ⟨h1, h2⟩ := h
  have hlt : (i - w.start_index).toNat < w.items.length := by
    rcases List.getElem?_eq_some.mp h2 with ⟨hl, _⟩
    exact hl
  unfold push_back
  split
  · rename_i he
    simp only [List.isEmpty_iff] at he
    rw [he] at hlt; simp at hlt
  · rw [get_eq_some_iff]
    refine ⟨h1, ?_⟩
    simp only
    rw [List.getElem?_append_left hlt]
    exact h2

theorem get_push_front (w : IndexedDequeue α) (v : α) (i : Int) (x : α)
    (h : w.get i = some x) : (w.push_front v).1.get i = some x := by
  rw [get_eq_some_iff] at h
  obtain ⟨h1, h2⟩ := h
  have hlt : (i - w.start_index).toNat < w.items.length := by
    rcases List.getElem?_eq_some.mp h2 with ⟨hl, _⟩
    exact hl
  unfold push_front
  split
  · rename_i he
    simp only [List.isEmpty_iff] at he
    rw [he] at hlt; simp at hlt
  · rw [get_eq_some_iff]
    refine ⟨by simp only; omega, ?_⟩
    simp only
    have : (i - (w.start_index - 1)).toNat = (i - w.start_index).toNat + 1 := by omega
    rw [this, List.getElem?_cons_succ]
    exact h2

theorem get_foldl_push_front (ls : List α) (w : IndexedDequeue α) (i : Int) (x : α)
    (h : w.get i = some x) :
    (ls.foldl (fun w l => (w.push_front l).1) w).get i = some x := by
  induction ls generalizing w with
  | nil => simpa using h
  | cons l rest ih =>
    simp only [List.foldl_cons]
    exact ih _ (get_push_front w l i x h)

theorem get_evict_front (w : IndexedDequeue α) (i : Int) (x : α)
    (h : w.get i = some x) (hi : w.start_index < i) : w.evict_front.get i = some x := by
  rw [get_eq_some_iff] at h
  obtain ⟨_, h2⟩ := h
  unfold evict_front
  split
  · rename_i he
    rw [he] at h2; simp at h2
  · rename_i y rest he
    rw [get_eq_some_iff]
    refine ⟨by simp only; omega, ?_⟩
    simp only
    have : (i - w.start_index).toNat = (i - (w.start_index + 1)).toNat + 1 := by omega
    rw [he, this, List.getElem?_cons_succ] at h2
    exact h2

theorem get_evict_back (w : IndexedDequeue α) (i : Int) (x : α)
    (h : w.get i = some x) (hi : i < w.start_index + w.items.length - 1) :
    w.evict_back.get i = some x := by
  rw [get_eq_some_iff] at h
  obtain ⟨h1, h2⟩ := h
  rw [get_eq_some_iff]
  refine ⟨h1, ?_⟩
  simp only [evict_back, List.getElem?_dropLast]
  rw [if_pos (by omega)]
  exact h2

theorem get_some_bounds (w : IndexedDequeue α) (i : Int) (x : α) (h : w.get i = some x) :
    w.start_index ≤ i ∧ i < w.start_index + w.items.length := by
  rw [get_eq_some_iff] at h
  obtain ⟨h1, h2⟩ := h
  rcases List.getElem?_eq_some.mp h2 with ⟨hl, _⟩
  exact ⟨h1, by omega⟩

theorem get_none_bounds (w : IndexedDequeue α) (i : Int) (h : w.get i = none) :
    i < w.start_index ∨ w.start_index + w.items.length ≤ i := by
  unfold get at h
  split at h
  · right
    rw [List.getElem?_eq_none_iff] at h
    omega
  · left; omega

end IndexedDequeue

namespace TokenLineScroller

/-! ## Scroller: what the extension and eviction steps leave alone -/

theorem grows_to_refl (s : TokenLineScroller) : grows_to s s :=
  ⟨rfl, rfl, fun _ h => h, fun _ h => h, fun _ _ h => h⟩

theorem grows_to_trans {s1 s2 s3 : TokenLineScroller} (h12 : grows_to s1 s2)
    (h23 : grows_to s2 s3) : grows_to s1 s3 := by
  obtain ⟨a1, a2, a3, a4, a5⟩ := h12
  obtain ⟨b1, b2, b3, b4, b5⟩ := h23
  exact ⟨by rw [b1, a1], by rw [b2, a2], fun l h => b3 l (a3 l h), fun f h => b4 f (a4 f h),
    fun i x h => b5 i x (a5 i x h)⟩

theorem forward_grows (num : Nat) (s : TokenLineScroller) :
    grows_to s (get_more_lines_forward num s).2 := by
  induction num generalizing s with
  | zero => exact grows_to_refl s
  | succ n ih =>
    unfold get_more_lines_forward
    split
    · refine ⟨rfl, rfl, ?_, fun _ h => h, fun _ _ h => h⟩
      intro l hl
      simp only [hl]
    · refine grows_to_trans ?_ (ih _)
      exact ⟨rfl, rfl, fun _ h => h, fun _ h => h,
        fun i x h => IndexedDequeue.get_push_back _ _ i x h⟩

theorem forward_first (num : Nat) (s : TokenLineScroller) :
    (get_more_lines_forward num s).2.global_first_line = s.global_first_line := by
  induction num generalizing s with
  | zero => rfl
  | succ n ih =>
    unfold get_more_lines_forward
    split
    · rfl
    · simp only [ih]

theorem back_chunk_grows (need : Nat) (s : TokenLineScroller) :
    grows_to s (back_chunk need s).2 := by
  refine ⟨rfl, rfl, fun _ h => h, fun _ h => h, ?_⟩
  intro i x h
  exact IndexedDequeue.get_foldl_push_front _ _ i x h

theorem back_loop_grows (fuel need : Nat) (s : TokenLineScroller) :
    grows_to s (back_loop fuel need s).2 := by
  induction fuel generalizing need s with
  | zero => exact grows_to_refl s
  | succ n ih =>
    cases need with
    | zero => exact grows_to_refl s
    | succ k =>
      unfold back_loop
      split
      · refine ⟨rfl, rfl, fun _ h => h, ?_, fun _ _ h => h⟩
        intro f hf
        simp only [hf]
      · exact grows_to_trans (back_chunk_grows _ s) (ih _ _)

theorem extend_forward_grows (line_num : Int) (fuel : Nat) (s : TokenLineScroller) :
    grows_to s (extend_forward line_num fuel s) := by
  induction fuel generalizing s with
  | zero => exact grows_to_refl s
  | succ n ih =>
    unfold extend_forward
    split
    · exact grows_to_refl s
    · split
      · exact grows_to_refl s
      · split
        · exact grows_to_refl s
        · simp only
          split
          · exact forward_grows _ s
          · exact grows_to_trans (forward_grows _ s) (ih _)

theorem extend_forward_first (line_num : Int) (fuel : Nat) (s : TokenLineScroller) :
    (extend_forward line_num fuel s).global_first_line = s.global_first_line := by
  induction fuel generalizing s with
  | zero => rfl
  | succ n ih =>
    unfold extend_forward
    split
    · rfl
    · split
      · rfl
      · split
        · rfl
        · simp only
          split
          · exact forward_first _ s
          · rw [ih, forward_first]

theorem extend_backward_grows (line_num : Int) (fuel : Nat) (s : TokenLineScroller) :
    grows_to s (extend_backward line_num fuel s) := by
  induction fuel generalizing s with
  | zero => exact grows_to_refl s
  | succ n ih =>
    unfold extend_backward
    split
    · exact grows_to_refl s
    · split
      · exact grows_to_refl s
      · split
        · exact grows_to_refl s
        · simp only
          split
          · exact back_loop_grows _ _ s
          · exact grows_to_trans (back_loop_grows _ _ s) (ih _)

theorem evict_front_n_frame (n : Nat) (s : TokenLineScroller) :
    (evict_front_n n s).current_line = s.current_line ∧
    (evict_front_n n s).num_lines_lookahead = s.num_lines_lookahead ∧
    (evict_front_n n s).global_last_line = s.global_last_line ∧
    (evict_front_n n s).global_first_line = s.global_first_line := by
  induction n generalizing s with
  | zero => exact ⟨rfl, rfl, rfl, rfl⟩
  | succ k ih =>
    unfold evict_front_n
    split
    · exact ⟨rfl, rfl, rfl, rfl⟩
    · obtain ⟨a, b, c, d⟩ := ih { s with
        lines_buf := s.lines_buf.evict_front,
        backward_it := s.backward_it + _ }
      exact ⟨a, b, c, d⟩

theorem evict_back_n_frame (n : Nat) (s : TokenLineScroller) :
    (evict_back_n n s).current_line = s.current_line ∧
    (evict_back_n n s).num_lines_lookahead = s.num_lines_lookahead ∧
    (evict_back_n n s).global_last_line = s.global_last_line ∧
    (evict_back_n n s).global_first_line = s.global_first_line := by
  induction n generalizing s with
  | zero => exact ⟨rfl, rfl, rfl, rfl⟩
  | succ k ih =>
    unfold evict_back_n
    split
    · exact ⟨rfl, rfl, rfl, rfl⟩
    · obtain ⟨a, b, c, d⟩ := ih { s with
        lines_buf := s.lines_buf.evict_back,
        forward_it := s.forward_it - _ }
      exact ⟨a, b, c, d⟩

theorem evict_front_n_get (n : Nat) (s : TokenLineScroller) (i : Int) (x : DisplayLine)
    (h : s.lines_buf.get i = some x) (hn : (n : Int) ≤ i - s.lines_buf.start_index) :
    (evict_front_n n s).lines_buf.get i = some x := by
  induction n generalizing s with
  | zero => exact h
  | succ k ih =>
    unfold evict_front_n
    split
    · exact h
    · rename_i l hl
      apply ih
      · exact IndexedDequeue.get_evict_front _ i x h (by omega)
      · obtain ⟨ys, hys⟩ := List.head?_eq_some_iff.mp hl
        simp only [IndexedDequeue.evict_front, hys]
        omega

theorem evict_back_n_get (n : Nat) (s : TokenLineScroller) (i : Int) (x : DisplayLine)
    (h : s.lines_buf.get i = some x)
    (hn : i + n ≤ s.lines_buf.start_index + s.lines_buf.items.length - 1) :
    (evict_back_n n s).lines_buf.get i = some x := by
  induction n generalizing s with
  | zero => exact h
  | succ k ih =>
    unfold evict_back_n
    split
    · exact h
    · apply ih
      · exact IndexedDequeue.get_evict_back _ i x h (by omega)
      · have hb := IndexedDequeue.get_some_bounds _ i x h
        simp only [IndexedDequeue.evict_back, List.length_dropLast]
        omega

theorem evict_far_frame (line_num : Int) (s : TokenLineScroller) :
    (evict_far line_num s).current_line = s.current_line ∧
    (evict_far line_num s).num_lines_lookahead = s.num_lines_lookahead ∧
    (evict_far line_num s).global_last_line = s.global_last_line ∧
    (evict_far line_num s).global_first_line = s.global_first_line := by
  unfold evict_far
  simp only
  obtain ⟨a1, a2, a3, a4⟩ := evict_front_n_frame
    (min s.current_line line_num - s.num_lines_lookahead - s.lines_buf.start_index).toNat s
  obtain ⟨b1, b2, b3, b4⟩ := evict_back_n_frame
    ((evict_front_n (min s.current_line line_num - s.num_lines_lookahead
        - s.lines_buf.start_index).toNat s).lines_buf.start_index
      + (evict_front_n (min s.current_line line_num - s.num_lines_lookahead
        - s.lines_buf.start_index).toNat s).lines_buf.items.length - 1
      - (max s.current_line line_num + s.num_lines_lookahead)).toNat
    (evict_front_n (min s.current_line line_num - s.num_lines_lookahead
        - s.lines_buf.start_index).toNat s)
  exact ⟨by rw [b1, a1], by rw [b2, a2], by rw [b3, a3], by rw [b4, a4]⟩

theorem evict_far_get (line_num : Int) (s : TokenLineScroller) (i : Int) (x : DisplayLine)
    (h : s.lines_buf.get i = some x)
    (hlo : min s.current_line line_num ≤ i) (hhi : i ≤ max s.current_line line_num) :
    (evict_far line_num s).lines_buf.get i = some x := by
  unfold evict_far
  simp only
  have hb := IndexedDequeue.get_some_bounds _ i x h
  have h1 : (evict_front_n (min s.current_line line_num - s.num_lines_lookahead
      - s.lines_buf.start_index).toNat s).lines_buf.get i = some x := by
    apply evict_front_n_get _ _ _ _ h
    omega
  apply evict_back_n_get _ _ _ _ h1
  have hb1 := IndexedDequeue.get_some_bounds _ i x h1
  omega

/-! ## Scroller: `ensure_lines_around` -/

theorem ensure_resident (line_num : Int) (s : TokenLineScroller) (x : DisplayLine)
    (h : s.lines_buf.get line_num = some x) : ensure_lines_around line_num s = s := by
  unfold ensure_lines_around
  rw [h]

theorem ensure_keeps (line_num : Int) (s : TokenLineScroller) :
    (ensure_lines_around line_num s).current_line = s.current_line ∧
    (∀ l, s.global_last_line = some l →
      (ensure_lines_around line_num s).global_last_line = some l) ∧
    (∀ f, s.global_first_line = some f →
      (ensure_lines_around line_num s).global_first_line = some f) ∧
    (∀ x, s.lines_buf.get s.current_line = some x →
      (ensure_lines_around line_num s).lines_buf.get s.current_line = some x) := by
  unfold ensure_lines_around
  split
  · exact ⟨rfl, fun _ h => h, fun _ h => h, fun _ h => h⟩
  · split
    · split
      · rename_i lo hi _ _ _
        obtain ⟨g1, _, g3, g4, g5⟩ := extend_forward_grows line_num (line_num - hi).toNat s
        obtain ⟨e1, _, e3, e4⟩ := evict_far_frame line_num
          (extend_forward line_num (line_num - hi).toNat s)
        refine ⟨by rw [e1, g1], fun l h => by rw [e3]; exact g3 l h,
          fun f h => by rw [e4]; exact g4 f h, ?_⟩
        intro x hx
        apply evict_far_get _ _ _ _ (g5 _ _ hx)
        · rw [g1]; exact min_le_left _ _
        · rw [g1]; exact le_max_left _ _
      · split
        · rename_i lo hi _ _ _ _
          obtain ⟨g1, _, g3, g4, g5⟩ := extend_backward_grows line_num (lo - line_num).toNat s
          obtain ⟨e1, _, e3, e4⟩ := evict_far_frame line_num
            (extend_backward line_num (lo - line_num).toNat s)
          refine ⟨by rw [e1, g1], fun l h => by rw [e3]; exact g3 l h,
            fun f h => by rw [e4]; exact g4 f h, ?_⟩
          intro x hx
          apply evict_far_get _ _ _ _ (g5 _ _ hx)
          · rw [g1]; exact min_le_left _ _
          · rw [g1]; exact le_max_left _ _
        · exact ⟨rfl, fun _ h => h, fun _ h => h, fun _ h => h⟩
    · exact ⟨rfl, fun _ h => h, fun _ h => h, fun _ h => h⟩

theorem ensure_first_of_le (line_num : Int) (s : TokenLineScroller)
    (h : s.lines_buf.start_index ≤ line_num) :
    (ensure_lines_around line_num s).global_first_line = s.global_first_line := by
  unfold ensure_lines_around
  split
  · rfl
  · split
    · split
      · rename_i lo hi _ _ _
        rw [(evict_far_frame _ _).2.2.2, extend_forward_first]
      · split
        · rename_i lo hi hlo _ _ hlt
          exfalso
          unfold IndexedDequeue.min_index at hlo
          split at hlo
          · exact Option.noConfusion hlo
          · have : s.lines_buf.start_index = lo := Option.some.inj hlo
            omega
        · rfl
    · rfl

theorem beyond_of_grown (s s1 : TokenLineScroller) (t : Int)
    (hl : ∀ l, s.global_last_line = some l → s1.global_last_line = some l)
    (hf : ∀ f, s.global_first_line = some f → s1.global_first_line = some f)
    (h : beyond_boundary s1 t = false) : beyond_boundary s t = false := by
  unfold beyond_boundary at h ⊢
  rw [Bool.or_eq_false_iff] at h ⊢
  obtain ⟨h1, h2⟩ := h
  constructor
  · cases hs : s.global_last_line with
    | none => rfl
    | some l => rw [hl l hs] at h1; exact h1
  · cases hs : s.global_first_line with
    | none => rfl
    | some f => rw [hf f hs] at h2; exact h2

theorem clamp_of_not_beyond (s : TokenLineScroller) (t : Int)
    (h : beyond_boundary s t = false) : clamp_to_known s t = t := by
  unfold beyond_boundary at h
  rw [Bool.or_eq_false_iff] at h
  obtain ⟨h1, h2⟩ := h
  unfold clamp_to_known
  cases hl : s.global_last_line with
  | none =>
    cases hf : s.global_first_line with
    | none => rfl
    | some f =>
      rw [hf] at h2
      simp only [decide_eq_false_iff_not, not_lt] at h2
      simp only [max_eq_left h2]
  | some l =>
    rw [hl] at h1
    simp only [decide_eq_false_iff_not, not_lt] at h1
    cases hf : s.global_first_line with
    | none => simp only [min_eq_left h1]
    | some f =>
      rw [hf] at h2
      simp only [decide_eq_false_iff_not, not_lt] at h2
      simp only [min_eq_left h1, max_eq_left h2]

theorem get_line_relative_some (offset : Int) (s : TokenLineScroller) (L : DisplayLine)
    (h : (get_line_relative offset s).1 = some L) :
    beyond_boundary (ensure_lines_around (s.current_line + offset) s)
        (s.current_line + offset) = false ∧
    (ensure_lines_around (s.current_line + offset) s).lines_buf.get
        (s.current_line + offset) = some L := by
  unfold get_line_relative at h
  simp only at h
  split at h
  · exact Option.noConfusion h
  · rename_i hb
    exact ⟨by simpa using hb, h⟩

theorem get_line_relative_zero_resident (s : TokenLineScroller) (L : DisplayLine)
    (hL : s.lines_buf.get s.current_line = some L)
    (hb : beyond_boundary s s.current_line = false) :
    get_line_relative 0 s = (some L, s) := by
  unfold get_line_relative
  simp only [add_zero]
  rw [ensure_resident _ _ _ hL, hb, hL]
  rfl

theorem seek_of_resolvable (k : Int) (s : TokenLineScroller) (L : DisplayLine)
    (h : (get_line_relative k s).1 = some L) :
    seek_lines_relative k s =
      { ensure_lines_around (s.current_line + k) s with current_line := s.current_line + k } := by
  obtain ⟨hb, _⟩ := get_line_relative_some k s L h
  obtain ⟨_, kl, kf, _⟩ := ensure_keeps (s.current_line + k) s
  have hbs := beyond_of_grown s _ _ kl kf hb
  unfold seek_lines_relative
  simp only
  rw [clamp_of_not_beyond s _ hbs, clamp_of_not_beyond _ _ hb]

theorem get_zero_after_seek (k : Int) (s : TokenLineScroller) (L : DisplayLine)
    (h : (get_line_relative k s).1 = some L) :
    (get_line_relative 0 (seek_lines_relative k s)).1 = some L := by
  obtain ⟨hb, hg⟩ := get_line_relative_some k s L h
  rw [seek_of_resolvable k s L h]
  rw [get_line_relative_zero_resident _ L hg hb]

end TokenLineScroller

/-! ## Line builder: a token that never fits -/

theorem take_line_stops_before (line_fits : String → Nat → Bool) (budget : Nat)
    (t : DocToken) (post : List DocToken) (hnf : never_fits line_fits budget t)
    (mid acc : List DocToken) (hacc : acc ≠ []) :
    ∃ mid2, (take_line line_fits budget acc (mid ++ t :: post)).2 = mid2 ++ t :: post ∧
      mid2.length ≤ mid.length := by
  induction mid generalizing acc with
  | nil =>
    refine ⟨[], ?_, Nat.le_refl _⟩
    have hf : line_fits (line_text (acc ++ [t])) budget = false :=
      hnf acc [] (by simpa using hacc)
    have he : acc.isEmpty = false := by
      cases acc with
      | nil => exact absurd rfl hacc
      | cons _ _ => rfl
    simp only [List.nil_append]
    unfold take_line
    simp [he, hf]
  | cons m mid1 ih =>
    simp only [List.cons_append]
    unfold take_line
    split
    · split
      · exact ⟨mid1, rfl, by simp⟩
      · obtain ⟨mid2, h1, h2⟩ := ih (acc ++ [m]) (by simp)
        exact ⟨mid2, h1, by simp; omega⟩
    · exact ⟨m :: mid1, rfl, Nat.le_refl _⟩

theorem take_line_alone (line_fits : String → Nat → Bool) (budget : Nat)
    (t : DocToken) (post : List DocToken) (hnf : never_fits line_fits budget t) :
    take_line line_fits budget [] (t :: post) = ([t], post) := by
  unfold take_line
  simp only [List.isEmpty_nil, Bool.true_or, if_true, List.nil_append]
  split
  · rfl
  · cases post with
    | nil => simp [take_line]
    | cons u r =>
      have hf : line_fits (line_text [t, u]) budget = false :=
        hnf [] [u] (by simp)
      unfold take_line
      simp [hf]

theorem wrap_lines_fuel_alone (line_fits : String → Nat → Bool) (budget : Nat)
    (t : DocToken) (post : List DocToken) (hnf : never_fits line_fits budget t)
    (fuel : Nat) (pre : List DocToken) (h : (pre ++ t :: post).length ≤ fuel) :
    mk_line [t] ∈ wrap_lines_fuel line_fits budget fuel (pre ++ t :: post) := by
  induction fuel generalizing pre with
  | zero => simp at h
  | succ n ih =>
    cases pre with
    | nil =>
      simp only [List.nil_append, wrap_lines_fuel]
      rw [take_line_alone line_fits budget t post hnf]
      exact List.mem_cons_self _ _
    | cons p pre1 =>
      change mk_line [t] ∈
        mk_line (take_line line_fits budget [] (p :: (pre1 ++ t :: post))).1 ::
          wrap_lines_fuel line_fits budget n
            (take_line line_fits budget [] (p :: (pre1 ++ t :: post))).2
      apply List.mem_cons_of_mem
      have hstep : ∃ mid2, (take_line line_fits budget [] (p :: (pre1 ++ t :: post))).2
          = mid2 ++ t :: post ∧ mid2.length ≤ pre1.length := by
        unfold take_line
        simp only [List.isEmpty_nil, Bool.true_or, if_true, List.nil_append]
        split
        · exact ⟨pre1, rfl, Nat.le_refl _⟩
        · exact take_line_stops_before line_fits budget t post hnf pre1 [p] (by simp)
      obtain ⟨mid2, h1, h2⟩ := hstep
      rw [h1]
      apply ih
      simp only [List.length_append, List.length_cons] at h ⊢
      omega

theorem wrap_lines_fuel_length (line_fits : String → Nat → Bool) (budget : Nat)
    (fuel : Nat) (toks : List DocToken) (h : toks.length ≤ fuel) :
    (wrap_lines_fuel line_fits budget fuel toks).length ≤ toks.length := by
  induction fuel generalizing toks with
  | zero => simp [wrap_lines_fuel]
  | succ n ih =>
    cases toks with
    | nil => simp [wrap_lines_fuel]
    | cons t rest =>
      simp only [wrap_lines_fuel, List.length_cons]
      have hlt := take_line_rest_length line_fits budget t rest
      have := ih (take_line line_fits budget [] (t :: rest)).2
        (by simp only [List.length_cons] at h hlt; omega)
      simp only [List.length_cons] at hlt
      omega

theorem take_line_single (line_fits : String → Nat → Bool) (budget : Nat) (t : DocToken) :
    take_line line_fits budget [] [t] = ([t], []) := by
  unfold take_line
  simp only [List.isEmpty_nil, Bool.true_or, if_true, List.nil_append]
  split
  · rfl
  · simp [take_line]

namespace TokenLineScroller

/-! ## Scroller: initialization -/

theorem position_at_lt (doc : List DocToken) (a : DocAddr) (p : Nat)
    (h : position_at doc a = some p) : p < doc.length := by
  induction doc generalizing p with
  | nil => simp [position_at] at h
  | cons t rest ih =>
    unfold position_at at h
    split at h
    · cases h; simp
    · cases hr : position_at rest a with
      | none => rw [hr] at h; simp at h
      | some q =>
        rw [hr] at h
        simp at h
        have := ih q hr
        simp only [List.length_cons]
        omega

theorem forward_one_of_fresh (s : TokenLineScroller) (p : Nat) (hp : p < s.doc.length)
    (hw : s.lines_buf.items = []) (hf : s.forward_it = p) :
    ∃ ts, ts ≠ [] ∧
      (get_more_lines_forward 1 s).2 =
        { s with lines_buf := { start_index := 0, items := [mk_line ts] },
                 forward_it := p + ts.length } := by
  unfold get_more_lines_forward
  rw [hf]
  have hd : s.doc.drop p = s.doc[p] :: s.doc.drop (p + 1) := List.drop_eq_getElem_cons hp
  rw [hd]
  simp only [get_more_lines_forward]
  refine ⟨(take_line s.line_fits s.width_budget [] (s.doc[p] :: s.doc.drop (p + 1))).1, ?_, ?_⟩
  · intro h0
    have := take_line_first_pos s.line_fits s.width_budget s.doc[p] (s.doc.drop (p + 1))
    rw [h0] at this
    simp at this
  · simp [IndexedDequeue.push_back, hw, hf]

/-! ## Scroller: seeking and reading lines -/

/-- C1. If `get_line_relative k` yields a Display Line (its target is not past
a document boundary), then `seek_lines_relative k` followed by
`get_line_relative 0` yields that same Display Line, whether the seek starts
from the original state or from the state the first call left. -/
theorem seek_then_get_line (s : TokenLineScroller) (k : Int) (L : DisplayLine)
    (h : (get_line_relative k s).1 = some L) :
    (get_line_relative 0 (seek_lines_relative k s)).1 = some L ∧
    (get_line_relative 0 (seek_lines_relative k (get_line_relative k s).2)).1 = some L := by
  refine ⟨get_zero_after_seek k s L h, get_zero_after_seek k _ L ?_⟩
  obtain ⟨hb, hg⟩ := get_line_relative_some k s L h
  obtain ⟨hc, _, _, _⟩ := ensure_keeps (s.current_line + k) s
  show (get_line_relative k (ensure_lines_around (s.current_line + k) s)).1 = some L
  unfold get_line_relative
  simp only [hc]
  rw [ensure_resident _ _ _ hg, hb, hg]
  rfl

/-- C2. Round trip. Let `L` be the resident current line of a state whose
current line is inside the discovered boundaries, and let `d ≥ 0` be such that
the forward target exists (`get_line_relative d` yields a line `Ld`). Then
`seek_lines_relative d` lands on `Ld`, and `seek_lines_relative (-d)` after it
returns to the original line number, where `get_line_relative 0` yields `L`
itself: same tokens, same address range. -/
theorem seek_round_trip (s : TokenLineScroller) (d : Nat) (L Ld : DisplayLine)
    (hL : s.lines_buf.get s.current_line = some L)
    (hin : beyond_boundary s s.current_line = false)
    (hd : (get_line_relative d s).1 = some Ld) :
    (seek_lines_relative d s).current_line = s.current_line + d ∧
    (get_line_relative 0 (seek_lines_relative d s)).1 = some Ld ∧
    (seek_lines_relative (-(d : Int)) (seek_lines_relative d s)).current_line
      = s.current_line ∧
    (get_line_relative 0
      (seek_lines_relative (-(d : Int)) (seek_lines_relative d s))).1 = some L := by
  obtain ⟨hb, hg⟩ := get_line_relative_some d s Ld hd
  obtain ⟨_, _, _, hkeep⟩ := ensure_keeps (s.current_line + d) s
  have hL1 := hkeep L hL
  have hfirst : (ensure_lines_around (s.current_line + d) s).global_first_line
      = s.global_first_line := by
    apply ensure_first_of_le
    have := (IndexedDequeue.get_some_bounds _ _ _ hL).1
    omega
  -- the current line of `s` is not beyond a boundary of the state after the seek
  have hb1 : beyond_boundary (ensure_lines_around (s.current_line + d) s) s.current_line
      = false := by
    unfold beyond_boundary at hb hin ⊢
    rw [Bool.or_eq_false_iff] at hb hin ⊢
    constructor
    · cases hl : (ensure_lines_around (s.current_line + d) s).global_last_line with
      | none => rfl
      | some l =>
        have h1 := hb.1
        rw [hl] at h1
        simp only [decide_eq_false_iff_not, not_lt] at h1 ⊢
        omega
    · rw [hfirst]; exact hin.2
  have hs1 := seek_of_resolvable d s Ld hd
  have hback : (get_line_relative (-(d : Int)) (seek_lines_relative d s)).1 = some L := by
    rw [hs1]
    unfold get_line_relative
    simp only
    have ht : s.current_line + (d : Int) + -(d : Int) = s.current_line := by omega
    rw [ht]
    have hres : ({ ensure_lines_around (s.current_line + d) s with
        current_line := s.current_line + d } : TokenLineScroller).lines_buf.get s.current_line
        = some L := hL1
    rw [ensure_resident _ _ _ hres]
    have hbb : beyond_boundary ({ ensure_lines_around (s.current_line + d) s with
        current_line := s.current_line + d } : TokenLineScroller) s.current_line = false := hb1
    rw [hbb]
    exact hres
  refine ⟨by rw [hs1], get_zero_after_seek d s Ld hd, ?_, get_zero_after_seek _ _ L hback⟩
  rw [seek_of_resolvable _ _ L hback, hs1]
  simp only
  omega

theorem reinit_state_eq (s s0 : TokenLineScroller) (p : Nat)
    (h1 : s0.doc = s.doc) (h2 : s0.line_fits = s.line_fits)
    (h3 : s0.width_budget = s.width_budget) (h4 : s0.resync_budget = s.resync_budget)
    (h5 : s0.num_lines_lookahead = s.num_lines_lookahead) :
    ({ clear_buffer s0 with forward_it := p, backward_it := p } : TokenLineScroller)
      = { clear_buffer s with forward_it := p, backward_it := p } := by
  cases s0
  cases s
  simp only at h1 h2 h3 h4 h5
  subst h1 h2 h3 h4 h5
  rfl

/-- C7. Whenever `seek_to_address address` succeeds, whatever the prior state
was: the window holds exactly one materialized line, at global index 0;
`get_line_number` returns 0; `first_line_number` and `last_line_number` are
both absent; and the resulting state is the same from every prior state over
the same document and configuration. -/
theorem seek_to_address_reinit (s s2 : TokenLineScroller) (address : DocAddr)
    (h : seek_to_address address s = Except.ok s2) :
    (∃ l, s2.lines_buf.items = [l] ∧ l.tokens ≠ [] ∧ s2.lines_buf.get 0 = some l) ∧
    s2.lines_buf.min_index = some 0 ∧ s2.lines_buf.max_index = some 0 ∧
    get_line_number s2 = 0 ∧ first_line_number s2 = none ∧ last_line_number s2 = none ∧
    (∀ s0 : TokenLineScroller, s0.doc = s.doc → s0.line_fits = s.line_fits →
      s0.width_budget = s.width_budget → s0.resync_budget = s.resync_budget →
      s0.num_lines_lookahead = s.num_lines_lookahead →
      seek_to_address address s0 = Except.ok s2) := by
  unfold seek_to_address initialize_buffer_at at h
  cases hp : position_at (clear_buffer s).doc address with
  | none => rw [hp] at h; cases h
  | some p =>
    have h2 : (get_more_lines_forward 1
        { clear_buffer s with forward_it := p, backward_it := p }).2 = s2 := by
      rw [hp] at h
      exact Except.ok.inj h
    have hlt : p < (clear_buffer s).doc.length := position_at_lt _ _ _ hp
    obtain ⟨ts, hts, hst⟩ := forward_one_of_fresh
      { clear_buffer s with forward_it := p, backward_it := p } p hlt rfl rfl
    rw [hst] at h2
    subst h2
    refine ⟨⟨mk_line ts, rfl, hts, rfl⟩, rfl, rfl, rfl, rfl, rfl, ?_⟩
    intro s0 h1 h2 h3 h4 h5
    unfold seek_to_address initialize_buffer_at
    have hp0 : position_at (clear_buffer s0).doc address = some p := by
      have : (clear_buffer s0).doc = (clear_buffer s).doc := h1
      rw [this]; exact hp
    rw [hp0]
    show Except.ok (get_more_lines_forward 1
        { clear_buffer s0 with forward_it := p, backward_it := p }).2 = _
    rw [reinit_state_eq s s0 p h1 h2 h3 h4 h5, hst]

/-- Witness for C7: from the state reached by seeking two lines forward in the
example document, `seek_to_address 3` succeeds and yields a window starting
at index 0 with line number 0 and no known boundary. -/
theorem seek_to_address_reinit_witness :
    ∃ s2, seek_to_address 3 (seek_lines_relative 2 fox_scroller) = Except.ok s2 ∧
      s2.lines_buf.min_index = some 0 ∧ get_line_number s2 = 0 ∧
      first_line_number s2 = none ∧ last_line_number s2 = none :=
  ⟨(get_more_lines_forward 1
      { clear_buffer (seek_lines_relative 2 fox_scroller) with
        forward_it := 3, backward_it := 3 }).2,
    rfl,
    (seek_to_address_reinit (seek_lines_relative 2 fox_scroller) _ 3 rfl).2.1,
    (seek_to_address_reinit (seek_lines_relative 2 fox_scroller) _ 3 rfl).2.2.2.1,
    (seek_to_address_reinit (seek_lines_relative 2 fox_scroller) _ 3 rfl).2.2.2.2.1,
    (seek_to_address_reinit (seek_lines_relative 2 fox_scroller) _ 3 rfl).2.2.2.2.2.1⟩

/-- Witness for C1 on the example document: `get_line_relative 2` yields the line
`jumps`, and so does `get_line_relative 0` after `seek_lines_relative 2`. -/
theorem seek_then_get_line_witness :
    (get_line_relative 2 fox_scroller).1 = some (mk_line [word_token "jumps" 4]) ∧
    (get_line_relative 0 (seek_lines_relative 2 fox_scroller)).1
      = some (mk_line [word_token "jumps" 4]) :=
  ⟨by decide, (seek_then_get_line fox_scroller 2 _ (by decide)).1⟩

/-- Witness for C2, the scenario of the specification: from `The quick`, seeking
`+2` lands on `jumps` and seeking `-2` returns to line 0, `The quick`; the
same holds with a `get_line_relative 0` between the calls. -/
theorem seek_round_trip_witness :
    (get_line_relative 0 fox_scroller).1
      = some (mk_line [word_token "The" 0, word_token "quick" 1]) ∧
    (seek_lines_relative 2 fox_scroller).current_line = 2 ∧
    (get_line_relative 0 (seek_lines_relative 2 fox_scroller)).1
      = some (mk_line [word_token "jumps" 4]) ∧
    (seek_lines_relative (-2) (seek_lines_relative 2 fox_scroller)).current_line = 0 ∧
    (get_line_relative 0 (seek_lines_relative (-2) (seek_lines_relative 2 fox_scroller))).1
      = some (mk_line [word_token "The" 0, word_token "quick" 1]) ∧
    (get_line_relative 0 (seek_lines_relative (-2)
        (get_line_relative 0 (seek_lines_relative 2
          (get_line_relative 0 fox_scroller).2)).2)).1
      = some (mk_line [word_token "The" 0, word_token "quick" 1]) :=
  ⟨by decide,
   (seek_round_trip fox_scroller 2 (mk_line [word_token "The" 0, word_token "quick" 1])
      (mk_line [word_token "jumps" 4]) (by decide) (by decide) (by decide)).1,
   (seek_round_trip fox_scroller 2 (mk_line [word_token "The" 0, word_token "quick" 1])
      (mk_line [word_token "jumps" 4]) (by decide) (by decide) (by decide)).2.1,
   (seek_round_trip fox_scroller 2 (mk_line [word_token "The" 0, word_token "quick" 1])
      (mk_line [word_token "jumps" 4]) (by decide) (by decide) (by decide)).2.2.1,
   (seek_round_trip fox_scroller 2 (mk_line [word_token "The" 0, word_token "quick" 1])
      (mk_line [word_token "jumps" 4]) (by decide) (by decide) (by decide)).2.2.2,
   by decide⟩

theorem one_token_scroller (s s2 : TokenLineScroller) (t : DocToken) (address : DocAddr)
    (hdoc : s.doc = [t]) (h : seek_to_address address s = Except.ok s2) :
    s2.lines_buf.items = [mk_line [t]] ∧
    ∀ n, (get_more_lines_forward n s2).1 = 0 ∧
      (get_more_lines_forward n s2).2.lines_buf = s2.lines_buf := by
  unfold seek_to_address initialize_buffer_at at h
  have hd : (clear_buffer s).doc = [t] := hdoc
  cases hp : position_at (clear_buffer s).doc address with
  | none => rw [hp] at h; cases h
  | some p =>
    have h2 : (get_more_lines_forward 1
        { clear_buffer s with forward_it := p, backward_it := p }).2 = s2 := by
      rw [hp] at h
      exact Except.ok.inj h
    have hp0 : p = 0 := by
      have := position_at_lt _ _ _ hp
      rw [hd] at this
      simpa using this
    subst hp0
    have hs2 : s2 = { clear_buffer s with
        forward_it := 1, backward_it := 0,
        lines_buf := { start_index := 0, items := [mk_line [t]] } } := by
      rw [← h2]
      unfold get_more_lines_forward
      simp only [hd, List.drop_zero, take_line_single, get_more_lines_forward]
      rfl
    subst hs2
    refine ⟨rfl, ?_⟩
    intro n
    cases n with
    | zero => exact ⟨rfl, rfl⟩
    | succ k =>
      unfold get_more_lines_forward
      simp only [hd, List.drop_succ_cons, List.drop_nil]
      constructor <;> trivial

end TokenLineScroller

/-- C3. Forward progress of the line wrap, for every fit predicate and budget:
a one-token sequence wraps into exactly one line holding that token; wrapping
any finite sequence is a total computation that places every token, in order,
on lines that each hold at least one token (so there are at most as many lines
as tokens); a token that never fits is placed alone on its own line; and a
scroller over a one-token document holds exactly one Display Line, with that
token, and no further line can be produced. -/
theorem wrap_forward_progress (line_fits : String → Nat → Bool) (budget : Nat) :
    (∀ t : DocToken, wrap_lines line_fits budget [t] = [mk_line [t]]) ∧
    (∀ toks : List DocToken,
      ((wrap_lines line_fits budget toks).map (fun l => l.tokens)).flatten = toks ∧
      (∀ l ∈ wrap_lines line_fits budget toks, l.tokens ≠ []) ∧
      (wrap_lines line_fits budget toks).length ≤ toks.length) ∧
    (∀ (t : DocToken) (pre post : List DocToken), never_fits line_fits budget t →
      mk_line [t] ∈ wrap_lines line_fits budget (pre ++ t :: post)) ∧
    (∀ (s s2 : TokenLineScroller) (t : DocToken) (address : DocAddr),
      s.doc = [t] → s.line_fits = line_fits → s.width_budget = budget →
      TokenLineScroller.seek_to_address address s = Except.ok s2 →
      s2.lines_buf.items = [mk_line [t]] ∧
      ∀ n, (TokenLineScroller.get_more_lines_forward n s2).1 = 0 ∧
        (TokenLineScroller.get_more_lines_forward n s2).2.lines_buf = s2.lines_buf) := by
  refine ⟨?_, ?_, ?_, ?_⟩
  · intro t
    simp [wrap_lines, wrap_lines_fuel, take_line_single]
  · intro toks
    exact ⟨wrap_lines_fuel_tokens line_fits budget _ toks (Nat.le_refl _),
      wrap_lines_fuel_nonempty line_fits budget _ toks,
      wrap_lines_fuel_length line_fits budget _ toks (Nat.le_refl _)⟩
  · intro t pre post hnf
    exact wrap_lines_fuel_alone line_fits budget t post hnf _ pre (Nat.le_refl _)
  · intro s s2 t address hdoc _ _ h
    exact TokenLineScroller.one_token_scroller s s2 t address hdoc h

/-- Witness for C3: with a predicate that rejects everything each token of the
example document is alone on its line, and a single token wider than the
budget gives exactly one line. -/
theorem wrap_forward_progress_witness :
    wrap_lines fits_nothing 0 fox_doc = fox_doc.map (fun t => mk_line [t]) ∧
    mk_line [word_token "brown" 2] ∈ wrap_lines fits_nothing 0 fox_doc ∧
    wrap_lines fits_chars 3 [word_token "jumps" 4] = [mk_line [word_token "jumps" 4]] :=
  ⟨by decide,
   (wrap_forward_progress fits_nothing 0).2.2.1 (word_token "brown" 2)
      [word_token "The" 0, word_token "quick" 1] [word_token "fox" 3, word_token "jumps" 4]
      (fun _ _ _ => rfl),
   (wrap_forward_progress fits_chars 3).1 (word_token "jumps" 4)⟩

namespace TokenLineScroller

/-! ## Scroller: the extension loops reach their target or a boundary -/

theorem forward_count (num : Nat) (s : TokenLineScroller) :
    (get_more_lines_forward num s).2.lines_buf.items.length
      = s.lines_buf.items.length + (get_more_lines_forward num s).1 ∧
    (s.lines_buf.items ≠ [] →
      (get_more_lines_forward num s).2.lines_buf.start_index = s.lines_buf.start_index) ∧
    ((get_more_lines_forward num s).1 = num ∨
      (get_more_lines_forward num s).2.global_last_line ≠ none) := by
  induction num generalizing s with
  | zero => exact ⟨rfl, fun _ => rfl, Or.inl rfl⟩
  | succ n ih =>
    unfold get_more_lines_forward
    split
    · refine ⟨rfl, fun _ => rfl, Or.inr ?_⟩
      simp only
      cases s.global_last_line <;> simp
    · rename_i t rest _
      simp only
      obtain ⟨h1, h2, h3⟩ := ih { s with
        lines_buf := (s.lines_buf.push_back
          (mk_line (take_line s.line_fits s.width_budget [] (t :: rest)).1)).1,
        forward_it := s.forward_it
          + (take_line s.line_fits s.width_budget [] (t :: rest)).1.length }
      refine ⟨?_, ?_, ?_⟩
      · rw [h1]
        simp only [IndexedDequeue.push_back]
        split
        · rename_i he
          simp only [List.isEmpty_iff] at he
          simp [he]
          omega
        · simp
          omega
      · intro hne
        rw [h2]
        · simp only [IndexedDequeue.push_back]
          split
          · rename_i he
            simp only [List.isEmpty_iff] at he
            exact absurd he hne
          · rfl
        · simp only [IndexedDequeue.push_back]
          split <;> simp
      · rcases h3 with h3 | h3
        · left; omega
        · right; exact h3

theorem max_index_eq_some (w : IndexedDequeue DisplayLine) (hi : Int)
    (h : w.max_index = some hi) :
    w.items ≠ [] ∧ hi = w.start_index + w.items.length - 1 := by
  unfold IndexedDequeue.max_index at h
  split at h
  · cases h
  · rename_i he
    injection h with h
    exact ⟨by simpa using he, h.symm⟩

theorem min_index_eq_some (w : IndexedDequeue DisplayLine) (lo : Int)
    (h : w.min_index = some lo) :
    w.items ≠ [] ∧ lo = w.start_index := by
  unfold IndexedDequeue.min_index at h
  split at h
  · cases h
  · rename_i he
    injection h with h
    exact ⟨by simpa using he, h.symm⟩

theorem extend_forward_reaches (line_num : Int) (fuel : Nat) (s : TokenLineScroller)
    (hi : Int) (hmax : s.lines_buf.max_index = some hi) (hlt : hi < line_num)
    (hfuel : 0 < fuel) :
    line_num < (extend_forward line_num fuel s).lines_buf.start_index
        + (extend_forward line_num fuel s).lines_buf.items.length ∨
    (extend_forward line_num fuel s).global_last_line ≠ none := by
  obtain ⟨hne, hhi⟩ := max_index_eq_some _ _ hmax
  cases fuel with
  | zero => omega
  | succ n =>
    unfold extend_forward
    rw [hmax]
    simp only
    rw [if_neg (by omega)]
    split
    · rename_i hr
      right
      unfold last_reached at hr
      cases hl : s.global_last_line with
      | none => rw [hl] at hr; cases hr
      | some l => simp
    · obtain ⟨c1, c2, c3⟩ := forward_count (line_num - hi).toNat s
      split
      · rename_i h0
        right
        rcases c3 with c3 | c3
        · omega
        · exact c3
      · rcases c3 with c3 | c3
        · left
          -- all the missing lines were produced: the loop stops at once
          have hlen : (get_more_lines_forward (line_num - hi).toNat s).2.lines_buf.items.length
              = s.lines_buf.items.length + (line_num - hi).toNat := by rw [c1, c3]
          have hst := c2 hne
          have hres : extend_forward line_num n (get_more_lines_forward (line_num - hi).toNat s).2
              = (get_more_lines_forward (line_num - hi).toNat s).2 := by
            cases n with
            | zero => rfl
            | succ k =>
              unfold extend_forward
              have hne2 : (get_more_lines_forward (line_num - hi).toNat s).2.lines_buf.items
                  ≠ [] := by
                intro h0
                rw [h0] at hlen
                simp at hlen
                omega
              have hm : (get_more_lines_forward (line_num - hi).toNat s).2.lines_buf.max_index
                  = some ((get_more_lines_forward (line_num - hi).toNat s).2.lines_buf.start_index
                    + (get_more_lines_forward (line_num - hi).toNat s).2.lines_buf.items.length
                    - 1) := by
                unfold IndexedDequeue.max_index
                rw [if_neg (by simpa using hne2)]
              rw [hm]
              simp only
              rw [if_pos (by rw [hst, hlen]; omega)]
          rw [hres, hst, hlen]
          omega
        · right
          obtain ⟨_, _, g3, _, _⟩ := extend_forward_grows line_num n
            (get_more_lines_forward (line_num - hi).toNat s).2
          cases hl : (get_more_lines_forward (line_num - hi).toNat s).2.global_last_line with
          | none => exact absurd hl c3
          | some l => rw [g3 l hl]; simp

theorem resync_scan_le (doc : List DocToken) (budget pos : Nat) :
    resync_scan doc budget pos ≤ pos := by
  induction budget generalizing pos with
  | zero => simp [resync_scan]
  | succ b ih =>
    cases pos with
    | zero => simp [resync_scan]
    | succ p =>
      unfold resync_scan
      split
      · split
        · exact Nat.le_refl _
        · exact Nat.le_succ_of_le (ih p)
      · exact Nat.le_succ_of_le (ih p)

theorem foldl_push_front_shape (ls : List DisplayLine) (w : IndexedDequeue DisplayLine)
    (hne : w.items ≠ []) :
    (ls.foldl (fun w l => (w.push_front l).1) w).items.length = w.items.length + ls.length ∧
    (ls.foldl (fun w l => (w.push_front l).1) w).start_index = w.start_index - ls.length := by
  induction ls generalizing w with
  | nil => simp
  | cons l rest ih =>
    simp only [List.foldl_cons, List.length_cons]
    have hstep : (w.push_front l).1
        = { start_index := w.start_index - 1, items := l :: w.items } := by
      unfold IndexedDequeue.push_front
      rw [if_neg (by simpa using hne)]
    obtain ⟨h1, h2⟩ := ih (w.push_front l).1 (by rw [hstep]; simp)
    rw [h1, h2, hstep]
    simp only [List.length_cons, Nat.cast_add, Nat.cast_one]
    constructor <;> omega

theorem tokens_in_pos (ls : List DisplayLine) (hne : ls ≠ [])
    (hall : ∀ l ∈ ls, l.tokens ≠ []) : 0 < tokens_in ls := by
  unfold tokens_in
  apply List.sum_pos
  · intro x hx
    obtain ⟨l, hl, rfl⟩ := List.mem_map.mp hx
    exact List.length_pos.mpr (hall l hl)
  · simpa using hne

theorem back_chunk_shape (need : Nat) (s : TokenLineScroller)
    (hbc : 0 < s.backward_it) (hneed : 0 < need) :
    (back_chunk need s).1 ≤ need ∧
    (back_chunk need s).2.backward_it < s.backward_it ∧
    (s.lines_buf.items ≠ [] →
      (back_chunk need s).2.lines_buf.items.length
        = s.lines_buf.items.length + (back_chunk need s).1 ∧
      (back_chunk need s).2.lines_buf.start_index
        = s.lines_buf.start_index - (back_chunk need s).1) := by
  unfold back_chunk
  simp only
  generalize hfresh : List.dropWhile (overlaps_resident s.lines_buf)
    (wrap_lines s.line_fits s.width_budget
      (List.take (s.backward_it - resync_point s.doc s.resync_budget s.backward_it)
        (List.drop (resync_point s.doc s.resync_budget s.backward_it) s.doc))) = fresh
  have hall : ∀ l ∈ fresh, l.tokens ≠ [] := by
    intro l hl
    rw [← hfresh] at hl
    exact wrap_lines_fuel_nonempty _ _ _ _ l ((List.dropWhile_sublist _).subset hl)
  have hr : resync_point s.doc s.resync_budget s.backward_it < s.backward_it := by
    unfold resync_point
    have := resync_scan_le s.doc s.resync_budget (s.backward_it - 1)
    omega
  refine ⟨?_, ?_, ?_⟩
  · simp only [List.length_drop]
    omega
  · split
    · exact hr
    · rename_i hgt
      have hk : List.drop (fresh.length - need) fresh ≠ [] := by
        intro h0
        have := congrArg List.length h0
        simp only [List.length_drop, List.length_nil] at this
        omega
      have := tokens_in_pos _ hk (fun l hl => hall l (List.mem_of_mem_drop hl))
      omega
  · intro hne
    obtain ⟨h1, h2⟩ := foldl_push_front_shape
      (List.drop (fresh.length - need) fresh).reverse s.lines_buf hne
    rw [h1, h2]
    simp only [List.length_reverse]
    constructor <;> trivial

theorem back_loop_shape (fuel need : Nat) (s : TokenLineScroller)
    (hfuel : s.backward_it < fuel) (hne : s.lines_buf.items ≠ []) :
    ((back_loop fuel need s).1 = need ∨
      (back_loop fuel need s).2.global_first_line ≠ none) ∧
    (back_loop fuel need s).2.lines_buf.items.length
      = s.lines_buf.items.length + (back_loop fuel need s).1 ∧
    (back_loop fuel need s).2.lines_buf.start_index
      = s.lines_buf.start_index - (back_loop fuel need s).1 := by
  induction fuel generalizing need s with
  | zero => omega
  | succ n ih =>
    cases need with
    | zero => exact ⟨Or.inl rfl, by simp [back_loop], by simp [back_loop]⟩
    | succ k =>
      unfold back_loop
      split
      · refine ⟨Or.inr ?_, by simp, by simp⟩
        simp only
        cases s.global_first_line <;> simp
      · rename_i hbc
        obtain ⟨c1, c2, c3⟩ := back_chunk_shape (k + 1) s (by omega) (by omega)
        obtain ⟨c4, c5⟩ := c3 hne
        have hne2 : (back_chunk (k + 1) s).2.lines_buf.items ≠ [] := by
          intro h0
          rw [h0] at c4
          have : s.lines_buf.items.length = 0 := by
            simp only [List.length_nil] at c4
            omega
          exact hne (List.length_eq_zero.mp this)
        obtain ⟨i1, i2, i3⟩ := ih (k + 1 - (back_chunk (k + 1) s).1) (back_chunk (k + 1) s).2
          (by omega) hne2
        simp only
        refine ⟨?_, ?_, ?_⟩
        · rcases i1 with i1 | i1
          · left; omega
          · right; exact i1
        · rw [i2, c4]; omega
        · rw [i3, c5]
          push_cast
          omega

theorem extend_backward_reaches (line_num : Int) (fuel : Nat) (s : TokenLineScroller)
    (lo : Int) (hmin : s.lines_buf.min_index = some lo) (hlt : line_num < lo)
    (hfuel : 0 < fuel) :
    (extend_backward line_num fuel s).lines_buf.start_index ≤ line_num ∨
    (extend_backward line_num fuel s).global_first_line ≠ none := by
  obtain ⟨hne, hlo⟩ := min_index_eq_some _ _ hmin
  cases fuel with
  | zero => omega
  | succ n =>
    unfold extend_backward
    rw [hmin]
    simp only
    rw [if_neg (by omega)]
    split
    · rename_i hr
      right
      unfold first_reached at hr
      cases hl : s.global_first_line with
      | none => rw [hl] at hr; cases hr
      | some l => simp
    · obtain ⟨c1, c2, c3⟩ := back_loop_shape (s.backward_it + 1) (lo - line_num).toNat s
        (by omega) hne
      have hfirst_keep : ∀ s2 : TokenLineScroller, s2.global_first_line ≠ none →
          (extend_backward line_num n s2).global_first_line ≠ none := by
        intro s2 h2
        obtain ⟨_, _, _, g4, _⟩ := extend_backward_grows line_num n s2
        cases hl : s2.global_first_line with
        | none => exact absurd hl h2
        | some l => rw [g4 l hl]; simp
      unfold get_more_lines_backward
      split
      · rename_i h0
        right
        rcases c1 with c1 | c1
        · omega
        · exact c1
      · rcases c1 with c1 | c1
        · left
          have hst : (back_loop (s.backward_it + 1) (lo - line_num).toNat s).2.lines_buf.start_index
              = line_num := by
            rw [c3, c1]
            omega
          have hres : extend_backward line_num n
              (back_loop (s.backward_it + 1) (lo - line_num).toNat s).2
              = (back_loop (s.backward_it + 1) (lo - line_num).toNat s).2 := by
            cases n with
            | zero => rfl
            | succ k =>
              unfold extend_backward
              have hne2 : (back_loop (s.backward_it + 1) (lo - line_num).toNat s).2.lines_buf.items
                  ≠ [] := by
                intro h0
                rw [h0] at c2
                simp only [List.length_nil] at c2
                have : s.lines_buf.items.length = 0 := by omega
                exact hne (List.length_eq_zero.mp this)
              have hm : (back_loop (s.backward_it + 1)
                  (lo - line_num).toNat s).2.lines_buf.min_index = some line_num := by
                unfold IndexedDequeue.min_index
                rw [if_neg (by simpa using hne2), hst]
              rw [hm]
              simp only
              rw [if_pos (Int.le_refl _)]
          rw [hres, hst]
        · right
          exact hfirst_keep _ c1

theorem get_of_bounds (w : IndexedDequeue DisplayLine) (i : Int)
    (h1 : w.start_index ≤ i) (h2 : i < w.start_index + w.items.length) :
    ∃ x, w.get i = some x := by
  have hlt : (i - w.start_index).toNat < w.items.length := by omega
  refine ⟨w.items[(i - w.start_index).toNat], ?_⟩
  unfold IndexedDequeue.get
  rw [if_pos h1]
  exact List.getElem?_eq_getElem hlt

theorem ensure_reaches (line_num : Int) (s : TokenLineScroller)
    (hne : s.lines_buf.items ≠ []) :
    (∃ x, (ensure_lines_around line_num s).lines_buf.get line_num = some x) ∨
    (s.lines_buf.start_index + s.lines_buf.items.length ≤ line_num ∧
      (ensure_lines_around line_num s).global_last_line ≠ none) ∨
    (line_num < s.lines_buf.start_index ∧
      (ensure_lines_around line_num s).global_first_line ≠ none) := by
  have hmin : s.lines_buf.min_index = some s.lines_buf.start_index := by
    unfold IndexedDequeue.min_index
    rw [if_neg (by simpa using hne)]
  have hmax : s.lines_buf.max_index
      = some (s.lines_buf.start_index + s.lines_buf.items.length - 1) := by
    unfold IndexedDequeue.max_index
    rw [if_neg (by simpa using hne)]
  have hlen : 0 < s.lines_buf.items.length := List.length_pos.mpr hne
  unfold ensure_lines_around
  cases hg : s.lines_buf.get line_num with
  | some x => exact Or.inl ⟨x, hg⟩
  | none =>
    simp only [hmin, hmax]
    have hout := IndexedDequeue.get_none_bounds _ _ hg
    split
    · rename_i hhi
      -- forward
      have hr := extend_forward_reaches line_num
        (line_num - (s.lines_buf.start_index + s.lines_buf.items.length - 1)).toNat s _ hmax hhi
        (by omega)
      obtain ⟨g1, _, _, _, g5⟩ := extend_forward_grows line_num
        (line_num - (s.lines_buf.start_index + s.lines_buf.items.length - 1)).toNat s
      obtain ⟨_, _, e3, _⟩ := evict_far_frame line_num (extend_forward line_num
        (line_num - (s.lines_buf.start_index + s.lines_buf.items.length - 1)).toNat s)
      rcases hr with hr | hr
      · left
        obtain ⟨x0, hx0⟩ := get_of_bounds s.lines_buf s.lines_buf.start_index
          (Int.le_refl _) (by omega)
        have hb := IndexedDequeue.get_some_bounds _ _ _ (g5 _ _ hx0)
        obtain ⟨x, hx⟩ := get_of_bounds _ line_num (by omega) hr
        exact ⟨x, evict_far_get _ _ _ _ hx (min_le_right _ _) (le_max_right _ _)⟩
      · right; left
        exact ⟨by omega, by rw [e3]; exact hr⟩
    · split
      · rename_i hlo
        have hr := extend_backward_reaches line_num
          (s.lines_buf.start_index - line_num).toNat s _ hmin hlo (by omega)
        obtain ⟨g1, _, _, _, g5⟩ := extend_backward_grows line_num
          (s.lines_buf.start_index - line_num).toNat s
        obtain ⟨_, _, _, e4⟩ := evict_far_frame line_num (extend_backward line_num
          (s.lines_buf.start_index - line_num).toNat s)
        rcases hr with hr | hr
        · left
          obtain ⟨x0, hx0⟩ := get_of_bounds s.lines_buf s.lines_buf.start_index
            (Int.le_refl _) (by omega)
          have hb := IndexedDequeue.get_some_bounds _ _ _ (g5 _ _ hx0)
          obtain ⟨x, hx⟩ := get_of_bounds _ line_num hr (by omega)
          exact ⟨x, evict_far_get _ _ _ _ hx (min_le_right _ _) (le_max_right _ _)⟩
        · right; right
          exact ⟨hlo, by rw [e4]; exact hr⟩
      · omega

/-- Totality of `get_line_relative` over a non-empty window: the call yields
the line at its target, unless a document boundary is known afterwards. -/
theorem get_line_relative_absent (offset : Int) (s : TokenLineScroller)
    (hne : s.lines_buf.items ≠ []) (h : (get_line_relative offset s).1 = none) :
    (get_line_relative offset s).2.global_last_line ≠ none ∨
    (get_line_relative offset s).2.global_first_line ≠ none := by
  unfold get_line_relative at h ⊢
  simp only at h ⊢
  split at h
  · rename_i hb
    unfold beyond_boundary at hb
    rw [Bool.or_eq_true] at hb
    rcases hb with hb | hb
    · left
      intro h0
      rw [h0] at hb
      cases hb
    · right
      intro h0
      rw [h0] at hb
      cases hb
  · rcases ensure_reaches (s.current_line + offset) s hne with
      ⟨x, hx⟩ | ⟨_, hl⟩ | ⟨_, hf⟩
    · rw [hx] at h; cases h
    · exact Or.inl hl
    · exact Or.inr hf

/-! ## Scroller: a sound focus -/

theorem bounds_outside_refl (s : TokenLineScroller) : bounds_outside s s :=
  ⟨fun _ h => Or.inl h, fun _ h => Or.inl h⟩

theorem bounds_outside_trans {s1 s2 s3 : TokenLineScroller}
    (g12 : grows_to s1 s2) (h12 : bounds_outside s1 s2) (h23 : bounds_outside s2 s3) :
    bounds_outside s1 s3 := by
  obtain ⟨_, _, _, _, g5⟩ := g12
  constructor
  · intro l hl
    rcases h23.1 l hl with h | h
    · exact h12.1 l h
    · exact Or.inr (fun i x hx => h i x (g5 i x hx))
  · intro f hf
    rcases h23.2 f hf with h | h
    · exact h12.2 f h
    · exact Or.inr (fun i x hx => h i x (g5 i x hx))

theorem resident_le_boundary (s : TokenLineScroller) (i : Int) (x : DisplayLine)
    (h : s.lines_buf.get i = some x) :
    i ≤ boundary_index s.lines_buf.max_index s.current_line ∧
    boundary_index s.lines_buf.min_index s.current_line ≤ i := by
  obtain ⟨h1, h2⟩ := IndexedDequeue.get_some_bounds _ _ _ h
  have hne : s.lines_buf.items ≠ [] := by
    intro h0
    rw [h0] at h2
    simp at h2
    omega
  unfold IndexedDequeue.max_index IndexedDequeue.min_index
  rw [if_neg (by simpa using hne), if_neg (by simpa using hne)]
  simp only [boundary_index]
  omega

theorem forward_bounds (num : Nat) (s : TokenLineScroller) :
    bounds_outside s (get_more_lines_forward num s).2 := by
  induction num generalizing s with
  | zero => exact bounds_outside_refl s
  | succ n ih =>
    unfold get_more_lines_forward
    split
    · refine ⟨?_, fun _ h => Or.inl h⟩
      intro l hl
      simp only at hl
      cases hs : s.global_last_line with
      | some l0 => rw [hs] at hl; exact Or.inl hl
      | none =>
        rw [hs] at hl
        injection hl with hl
        right
        intro i x hx
        rw [← hl]
        exact (resident_le_boundary s i x hx).1
    · rename_i t rest _
      have hg : grows_to s { s with
          lines_buf := (s.lines_buf.push_back
            (mk_line (take_line s.line_fits s.width_budget [] (t :: rest)).1)).1,
          forward_it := s.forward_it
            + (take_line s.line_fits s.width_budget [] (t :: rest)).1.length } :=
        ⟨rfl, rfl, fun _ h => h, fun _ h => h,
          fun i x h => IndexedDequeue.get_push_back _ _ i x h⟩
      exact bounds_outside_trans hg ⟨fun _ h => Or.inl h, fun _ h => Or.inl h⟩ (ih _)

theorem back_loop_bounds (fuel need : Nat) (s : TokenLineScroller) :
    bounds_outside s (back_loop fuel need s).2 := by
  induction fuel generalizing need s with
  | zero => exact bounds_outside_refl s
  | succ n ih =>
    cases need with
    | zero => exact bounds_outside_refl s
    | succ k =>
      unfold back_loop
      split
      · refine ⟨fun _ h => Or.inl h, ?_⟩
        intro f hf
        simp only at hf
        cases hs : s.global_first_line with
        | some f0 => rw [hs] at hf; exact Or.inl hf
        | none =>
          rw [hs] at hf
          injection hf with hf
          right
          intro i x hx
          rw [← hf]
          exact (resident_le_boundary s i x hx).2
      · exact bounds_outside_trans (back_chunk_grows _ s)
          ⟨fun _ h => Or.inl h, fun _ h => Or.inl h⟩ (ih _ _)

theorem extend_forward_bounds (line_num : Int) (fuel : Nat) (s : TokenLineScroller) :
    bounds_outside s (extend_forward line_num fuel s) := by
  induction fuel generalizing s with
  | zero => exact bounds_outside_refl s
  | succ n ih =>
    unfold extend_forward
    split
    · exact bounds_outside_refl s
    · split
      · exact bounds_outside_refl s
      · split
        · exact bounds_outside_refl s
        · simp only
          split
          · exact forward_bounds _ s
          · exact bounds_outside_trans (forward_grows _ s) (forward_bounds _ s) (ih _)

theorem extend_backward_bounds (line_num : Int) (fuel : Nat) (s : TokenLineScroller) :
    bounds_outside s (extend_backward line_num fuel s) := by
  induction fuel generalizing s with
  | zero => exact bounds_outside_refl s
  | succ n ih =>
    unfold extend_backward
    split
    · exact bounds_outside_refl s
    · split
      · exact bounds_outside_refl s
      · split
        · exact bounds_outside_refl s
        · simp only
          split
          · exact back_loop_bounds _ _ s
          · exact bounds_outside_trans (back_loop_grows _ _ s) (back_loop_bounds _ _ s) (ih _)

theorem ensure_bounds (line_num : Int) (s : TokenLineScroller) :
    bounds_outside s (ensure_lines_around line_num s) := by
  unfold ensure_lines_around
  split
  · exact bounds_outside_refl s
  · split
    · split
      · rename_i lo hi _ _ _
        obtain ⟨b1, b2⟩ := extend_forward_bounds line_num (line_num - hi).toNat s
        obtain ⟨_, _, e3, e4⟩ := evict_far_frame line_num
          (extend_forward line_num (line_num - hi).toNat s)
        exact ⟨fun l hl => b1 l (by rw [← e3]; exact hl),
          fun f hf => b2 f (by rw [← e4]; exact hf)⟩
      · split
        · rename_i lo hi _ _ _ _
          obtain ⟨b1, b2⟩ := extend_backward_bounds line_num (lo - line_num).toNat s
          obtain ⟨_, _, e3, e4⟩ := evict_far_frame line_num
            (extend_backward line_num (lo - line_num).toNat s)
          exact ⟨fun l hl => b1 l (by rw [← e3]; exact hl),
            fun f hf => b2 f (by rw [← e4]; exact hf)⟩
        · exact bounds_outside_refl s
    · exact bounds_outside_refl s

theorem not_beyond_iff (s : TokenLineScroller) (t : Int) :
    beyond_boundary s t = false ↔
      (∀ l, s.global_last_line = some l → t ≤ l) ∧
      (∀ f, s.global_first_line = some f → f ≤ t) := by
  unfold beyond_boundary
  rw [Bool.or_eq_false_iff]
  cases s.global_last_line <;> cases s.global_first_line <;> simp

theorem focused_get_line_relative (offset : Int) (s : TokenLineScroller) (h : focused s) :
    focused (get_line_relative offset s).2 := by
  obtain ⟨⟨L, hL⟩, hb⟩ := h
  obtain ⟨k1, _, _, k4⟩ := ensure_keeps (s.current_line + offset) s
  obtain ⟨b1, b2⟩ := ensure_bounds (s.current_line + offset) s
  rw [not_beyond_iff] at hb
  show focused (ensure_lines_around (s.current_line + offset) s)
  refine ⟨⟨L, by rw [k1]; exact k4 L hL⟩, ?_⟩
  rw [not_beyond_iff, k1]
  constructor
  · intro l hl
    rcases b1 l hl with h | h
    · exact hb.1 l h
    · exact h _ _ hL
  · intro f hf
    rcases b2 f hf with h | h
    · exact hb.2 f h
    · exact h _ _ hL

theorem focused_seek_of_resolvable (k : Int) (s : TokenLineScroller) (L : DisplayLine)
    (h : (get_line_relative k s).1 = some L) : focused (seek_lines_relative k s) := by
  obtain ⟨hb, hg⟩ := get_line_relative_some k s L h
  rw [seek_of_resolvable k s L h]
  exact ⟨⟨L, hg⟩, hb⟩

theorem focused_seek_to_address (address : DocAddr) (s s2 : TokenLineScroller)
    (h : seek_to_address address s = Except.ok s2) : focused s2 := by
  unfold seek_to_address initialize_buffer_at at h
  cases hp : position_at (clear_buffer s).doc address with
  | none => rw [hp] at h; cases h
  | some p =>
    have h2 : (get_more_lines_forward 1
        { clear_buffer s with forward_it := p, backward_it := p }).2 = s2 := by
      rw [hp] at h
      exact Except.ok.inj h
    have hlt : p < (clear_buffer s).doc.length := position_at_lt _ _ _ hp
    obtain ⟨ts, _, hst⟩ := forward_one_of_fresh
      { clear_buffer s with forward_it := p, backward_it := p } p hlt rfl rfl
    rw [hst] at h2
    subst h2
    exact ⟨⟨mk_line ts, rfl⟩, rfl⟩

theorem seek_to_address_ok_iff (address : DocAddr) (s : TokenLineScroller) :
    (∃ s2, seek_to_address address s = Except.ok s2) ↔ ∃ t ∈ s.doc, address < t.stop := by
  have hpos : ∀ doc : List DocToken,
      (∃ p, position_at doc address = some p) ↔ ∃ t ∈ doc, address < t.stop := by
    intro doc
    induction doc with
    | nil => simp [position_at]
    | cons t rest ih =>
      unfold position_at
      by_cases ht : address < t.stop
      · rw [if_pos ht]
        exact ⟨fun _ => ⟨t, List.mem_cons_self _ _, ht⟩, fun _ => ⟨0, rfl⟩⟩
      · rw [if_neg ht]
        constructor
        · rintro ⟨p, hp⟩
          cases hr : position_at rest address with
          | none => rw [hr] at hp; cases hp
          | some q =>
            obtain ⟨u, hu, hlt⟩ := ih.mp ⟨q, hr⟩
            exact ⟨u, List.mem_cons_of_mem _ hu, hlt⟩
        · rintro ⟨u, hu, hlt⟩
          rcases List.mem_cons.mp hu with rfl | hu
          · exact absurd hlt ht
          · obtain ⟨q, hq⟩ := ih.mpr ⟨u, hu, hlt⟩
            exact ⟨q + 1, by rw [hq]; rfl⟩
  unfold seek_to_address initialize_buffer_at
  have hdoc : (clear_buffer s).doc = s.doc := rfl
  rw [hdoc, ← hpos s.doc]
  constructor
  · rintro ⟨s2, h⟩
    cases hp : position_at s.doc address with
    | none => rw [hp] at h; cases h
    | some p => exact ⟨p, rfl⟩
  · rintro ⟨p, hp⟩
    rw [hp]
    exact ⟨_, rfl⟩

/-- The example scroller is what `seek_to_address 0` yields, and its focus is
sound. -/
theorem fox_scroller_by_seek :
    seek_to_address 0 (blank_scroller fox_doc fits_chars 10 0) = Except.ok fox_scroller ∧
    focused fox_scroller :=
  ⟨rfl, focused_seek_to_address 0 (blank_scroller fox_doc fits_chars 10 0) _ rfl⟩

end TokenLineScroller

namespace SelectionMenu

variable {σ : Type}

/-! ## Selection menu: rendering -/

/-- C4. `render` returns false, draws nothing and leaves the menu unchanged
exactly when `needs_render` and `force_render` are both false; in every other
case it returns true, draws (starting with the background fill), clears
`needs_render` and changes nothing else; it returns true exactly when it drew;
and a `render` with `force_render = false` right afterwards returns false. -/
theorem render_reports_rendering (m : SelectionMenu σ) (force_render : Bool) :
    (((render m force_render).1 = false ∧ (render m force_render).2.1 = [] ∧
        (render m force_render).2.2 = m) ↔
      (m.needs_render = false ∧ force_render = false)) ∧
    (¬ (m.needs_render = false ∧ force_render = false) →
      (render m force_render).1 = true ∧
      (render m force_render).2.1 =
        DrawOp.clear_screen :: render_rows m m.num_display_lines 0 ∧
      (render m force_render).2.2 = { m with needs_render := false }) ∧
    ((render m force_render).1 = true ↔ (render m force_render).2.1 ≠ []) ∧
    (render (render m force_render).2.2 false).1 = false := by
  cases hn : m.needs_render <;> cases force_render <;> simp [render, hn]

/-! ## Selection menu: the done flag -/

theorem call_on_focus_fields (m : SelectionMenu σ) :
    (call_on_focus m)._is_done = m._is_done ∧
    (call_on_focus m).close_on_select = m.close_on_select ∧
    (call_on_focus m).cursor_pos = m.cursor_pos ∧
    (call_on_focus m).scroll_pos = m.scroll_pos ∧
    (call_on_focus m).entries = m.entries ∧
    (call_on_focus m).num_display_lines = m.num_display_lines := by
  unfold call_on_focus
  split <;> simp

theorem set_cursor_pos_done (m : SelectionMenu σ) (n : Nat) :
    (set_cursor_pos m n)._is_done = m._is_done ∧
    (set_cursor_pos m n).close_on_select = m.close_on_select := by
  simp [set_cursor_pos, call_on_focus_fields]

theorem set_cursor_pos_entry_done (m : SelectionMenu σ) (e : String) :
    (set_cursor_pos_entry m e)._is_done = m._is_done ∧
    (set_cursor_pos_entry m e).close_on_select = m.close_on_select := by
  unfold set_cursor_pos_entry
  split
  · split
    · exact set_cursor_pos_done m _
    · exact ⟨rfl, rfl⟩
  · exact ⟨rfl, rfl⟩

theorem on_move_up_done (m : SelectionMenu σ) (step : Nat) :
    (on_move_up m step)._is_done = m._is_done ∧
    (on_move_up m step).close_on_select = m.close_on_select := by
  unfold on_move_up
  split <;> simp [call_on_focus_fields]

theorem on_move_down_done (size_bits : Nat) (m : SelectionMenu σ) (step : Nat) :
    (on_move_down size_bits m step)._is_done = m._is_done ∧
    (on_move_down size_bits m step).close_on_select = m.close_on_select := by
  unfold on_move_down
  split <;> simp [call_on_focus_fields]

theorem on_keypress_done (size_bits : Nat) (m : SelectionMenu σ) (key : SDLKey) :
    (on_keypress size_bits m key)._is_done
        = (m._is_done || (Op.on_keypress key).closes m.close_on_select) ∧
    (on_keypress size_bits m key).close_on_select = m.close_on_select := by
  cases key with
  | SW_BTN_A =>
    simp only [on_keypress, Op.closes, on_select_entry]
    by_cases h1 : (!m.entries.isEmpty && m.has_on_selection) = true <;>
      by_cases h2 : m.close_on_select = true <;> simp [h1, h2]
  | other code =>
    simp only [on_keypress, Op.closes]
    split <;> simp
  | _ => simp [on_keypress, Op.closes, on_move_up_done, on_move_down_done]

theorem is_scroll_key_closes (key : SDLKey) (c : Bool) (h : is_scroll_key key = true) :
    (Op.on_keypress key).closes c = false := by
  cases key <;> simp_all [is_scroll_key, Op.closes]

theorem on_keyheld_done (size_bits : Nat) (throttle : σ → Nat → Bool × σ)
    (m : SelectionMenu σ) (key : SDLKey) (t : Nat) :
    (on_keyheld size_bits throttle m key t)._is_done = m._is_done ∧
    (on_keyheld size_bits throttle m key t).close_on_select = m.close_on_select := by
  unfold on_keyheld
  split
  · rename_i hk
    simp only
    split
    · obtain ⟨h1, h2⟩ := on_keypress_done size_bits
        { m with scroll_throttle := (throttle m.scroll_throttle t).2 } key
      rw [h1, h2, is_scroll_key_closes key _ hk]
      simp
    · exact ⟨rfl, rfl⟩
  · exact ⟨rfl, rfl⟩

theorem step_done (size_bits : Nat) (throttle : σ → Nat → Bool × σ)
    (m : SelectionMenu σ) (op : Op) :
    (step size_bits throttle m op)._is_done = (m._is_done || op.closes m.close_on_select) ∧
    (step size_bits throttle m op).close_on_select = m.close_on_select := by
  cases op with
  | set_entries es =>
    simp [step, set_entries, Op.closes, set_cursor_pos_done]
  | set_cursor_pos n => simp [step, Op.closes, set_cursor_pos_done]
  | set_cursor_pos_entry e => simp [step, Op.closes, set_cursor_pos_entry_done]
  | on_keypress k => exact on_keypress_done size_bits m k
  | on_keyheld k t => simp [step, Op.closes, on_keyheld_done]
  | render f =>
    cases hn : m.needs_render <;> cases f <;> simp [step, Op.closes, render, hn]
  | close => simp [step, Op.closes, close]

theorem run_done (size_bits : Nat) (throttle : σ → Nat → Bool × σ)
    (ops : List Op) (m : SelectionMenu σ) :
    (run size_bits throttle m ops)._is_done
        = (m._is_done || ops.any (fun op => op.closes m.close_on_select)) ∧
    (run size_bits throttle m ops).close_on_select = m.close_on_select := by
  induction ops generalizing m with
  | nil => simp [run]
  | cons op rest ih =>
    obtain ⟨s1, s2⟩ := step_done size_bits throttle m op
    obtain ⟨r1, r2⟩ := ih (step size_bits throttle m op)
    unfold run at r1 r2 ⊢
    simp only [List.foldl_cons, List.any_cons]
    rw [r1, r2, s1, s2]
    simp [Bool.or_assoc]

theorem closes_iff (c : Bool) (op : Op) :
    op.closes c = true ↔
      (op = Op.close ∨ op = Op.on_keypress SDLKey.SW_BTN_B ∨
        (op = Op.on_keypress SDLKey.SW_BTN_A ∧ c = true)) := by
  cases op with
  | on_keypress k => cases k <;> simp [Op.closes]
  | _ => simp [Op.closes]

/-- C5. Starting from a menu that is not done, after any sequence of
operations `is_done` is true if and only if the sequence contains `close()`,
a key press of B, or a key press of A while `close_on_select` is set; and once
`is_done` is true it stays true under every further sequence of operations. -/
theorem is_done_iff_closed (size_bits : Nat) (throttle : σ → Nat → Bool × σ)
    (m : SelectionMenu σ) (ops : List Op) (h : is_done m = false) :
    (is_done (run size_bits throttle m ops) = true ↔
      ∃ op ∈ ops, op = Op.close ∨ op = Op.on_keypress SDLKey.SW_BTN_B ∨
        (op = Op.on_keypress SDLKey.SW_BTN_A ∧ m.close_on_select = true)) ∧
    (∀ later : List Op, is_done (run size_bits throttle m ops) = true →
      is_done (run size_bits throttle (run size_bits throttle m ops) later) = true) := by
  unfold is_done at h ⊢
  constructor
  · rw [(run_done size_bits throttle ops m).1, h]
    simp only [Bool.false_or, List.any_eq_true]
    constructor
    · rintro ⟨op, hop, hc⟩
      exact ⟨op, hop, (closes_iff _ op).mp hc⟩
    · rintro ⟨op, hop, hc⟩
      exact ⟨op, hop, (closes_iff _ op).mpr hc⟩
  · intro later hdone
    rw [(run_done size_bits throttle later _).1, hdone]
    rfl

/-- Witness for C5: holding B, rendering and moving do not close the menu; a
sequence with a press of A, `close_on_select` being set, does. -/
theorem is_done_iff_closed_witness :
    is_done (run 32 always_accept ten_entry_menu
      [Op.on_keyheld SDLKey.SW_BTN_B 400, Op.render false, Op.on_keypress SDLKey.SW_BTN_DOWN])
      = false ∧
    is_done (run 32 always_accept ten_entry_menu
      [Op.on_keypress SDLKey.SW_BTN_DOWN, Op.on_keypress SDLKey.SW_BTN_A, Op.render true])
      = true :=
  ⟨by decide,
   (is_done_iff_closed 32 always_accept ten_entry_menu
      [Op.on_keypress SDLKey.SW_BTN_DOWN, Op.on_keypress SDLKey.SW_BTN_A, Op.render true]
      rfl).1.mpr ⟨Op.on_keypress SDLKey.SW_BTN_A, by decide, Or.inr (Or.inr ⟨rfl, rfl⟩)⟩⟩

/-! ## Selection menu: held keys -/

theorem on_move_up_throttle (m : SelectionMenu σ) (step : Nat) (x : σ) :
    on_move_up { m with scroll_throttle := x } step
      = { on_move_up m step with scroll_throttle := x } := by
  unfold on_move_up call_on_focus
  simp only
  split
  · split <;> rfl
  · rfl

theorem on_move_down_throttle (size_bits : Nat) (m : SelectionMenu σ) (step : Nat) (x : σ) :
    on_move_down size_bits { m with scroll_throttle := x } step
      = { on_move_down size_bits m step with scroll_throttle := x } := by
  unfold on_move_down call_on_focus size_minus_one
  simp only
  split
  · split <;> rfl
  · rfl

theorem on_keypress_throttle (size_bits : Nat) (m : SelectionMenu σ) (key : SDLKey) (x : σ) :
    on_keypress size_bits { m with scroll_throttle := x } key
      = { on_keypress size_bits m key with scroll_throttle := x } := by
  cases key with
  | SW_BTN_A =>
    simp only [on_keypress, on_select_entry]
    split <;> split <;> rfl
  | other code =>
    simp only [on_keypress]
    split <;> rfl
  | SW_BTN_B => rfl
  | _ => simp only [on_keypress, on_move_up_throttle, on_move_down_throttle]

/-- C8. When the key is one of UP, DOWN, LEFT, RIGHT, L1, R1 and the scroll
throttle accepts the held time, `on_keyheld` has exactly the effect of
`on_keypress` for that key (the throttle moving to its next state). In every
other case the cursor, the scroll position, `needs_render`, the done flag and
the entries are unchanged and no callback is invoked. Holding A or B leaves
the menu as it is, for every held time. -/
theorem on_keyheld_effect (size_bits : Nat) (throttle : σ → Nat → Bool × σ)
    (m : SelectionMenu σ) (key : SDLKey) (held_time_ms : Nat) :
    (is_scroll_key key = true ∧ (throttle m.scroll_throttle held_time_ms).1 = true →
      on_keyheld size_bits throttle m key held_time_ms =
        { on_keypress size_bits m key with
          scroll_throttle := (throttle m.scroll_throttle held_time_ms).2 }) ∧
    (¬ (is_scroll_key key = true ∧ (throttle m.scroll_throttle held_time_ms).1 = true) →
      (on_keyheld size_bits throttle m key held_time_ms).cursor_pos = m.cursor_pos ∧
      (on_keyheld size_bits throttle m key held_time_ms).scroll_pos = m.scroll_pos ∧
      (on_keyheld size_bits throttle m key held_time_ms).needs_render = m.needs_render ∧
      (on_keyheld size_bits throttle m key held_time_ms)._is_done = m._is_done ∧
      (on_keyheld size_bits throttle m key held_time_ms).entries = m.entries ∧
      (on_keyheld size_bits throttle m key held_time_ms).calls = m.calls) ∧
    (is_scroll_key key = true ↔
      key = SDLKey.SW_BTN_UP ∨ key = SDLKey.SW_BTN_DOWN ∨ key = SDLKey.SW_BTN_LEFT ∨
      key = SDLKey.SW_BTN_RIGHT ∨ key = SDLKey.SW_BTN_L1 ∨ key = SDLKey.SW_BTN_R1) ∧
    (∀ t : Nat, on_keyheld size_bits throttle m SDLKey.SW_BTN_A t = m ∧
      on_keyheld size_bits throttle m SDLKey.SW_BTN_B t = m) := by
  refine ⟨?_, ?_, ?_, ?_⟩
  · rintro ⟨hk, hv⟩
    unfold on_keyheld
    simp only [hk, hv, if_true]
    exact on_keypress_throttle size_bits m key _
  · intro hno
    unfold on_keyheld
    by_cases hk : is_scroll_key key = true
    · have hv : (throttle m.scroll_throttle held_time_ms).1 = false := by
        cases hx : (throttle m.scroll_throttle held_time_ms).1
        · rfl
        · exact absurd ⟨hk, hx⟩ hno
      simp [hk, hv]
    · simp [hk]
  · cases key <;> simp [is_scroll_key]
  · intro t
    exact ⟨rfl, rfl⟩

/-! ## Selection menu: cursor bound -/

theorem set_cursor_pos_fields (m : SelectionMenu σ) (n : Nat) :
    (set_cursor_pos m n).entries = m.entries ∧
    (set_cursor_pos m n).num_display_lines = m.num_display_lines ∧
    (set_cursor_pos m n).cursor_pos = (if n ≥ m.entries.length then 0 else n) := by
  simp [set_cursor_pos, call_on_focus_fields]

theorem cursor_ok_set_cursor_pos (m : SelectionMenu σ) (n : Nat) :
    cursor_ok (set_cursor_pos m n) := by
  obtain ⟨h1, _, h3⟩ := set_cursor_pos_fields m n
  unfold cursor_ok
  rw [h1, h3]
  cases he : m.entries with
  | nil => left; rfl
  | cons e rest =>
    right
    split
    · simp
    · rename_i hlt
      omega

theorem cursor_ok_set_entries (m : SelectionMenu σ) (es : List String) :
    cursor_ok (set_entries m es) := by
  have := cursor_ok_set_cursor_pos { m with entries := es } 0
  unfold cursor_ok at this ⊢
  exact this

theorem cursor_ok_set_cursor_pos_entry (m : SelectionMenu σ) (e : String)
    (h : cursor_ok m) : cursor_ok (set_cursor_pos_entry m e) := by
  unfold set_cursor_pos_entry
  split
  · split
    · exact cursor_ok_set_cursor_pos m _
    · exact h
  · exact h

theorem cursor_ok_on_move_up (m : SelectionMenu σ) (step : Nat) (h : cursor_ok m) :
    cursor_ok (on_move_up m step) := by
  unfold on_move_up
  split
  · unfold cursor_ok at h ⊢
    simp only [call_on_focus_fields]
    rcases h with h | h
    · left; exact h
    · right
      split <;> omega
  · exact h

theorem cursor_ok_on_move_down (size_bits : Nat) (m : SelectionMenu σ) (step : Nat)
    (h : cursor_ok m) : cursor_ok (on_move_down size_bits m step) := by
  unfold on_move_down
  split
  · unfold cursor_ok at h ⊢
    simp only [call_on_focus_fields]
    by_cases he : m.entries = []
    · left; exact he
    · right
      have hpos : 0 < m.entries.length := List.length_pos.mpr he
      have hle : min (u32 (m.cursor_pos + step)) (u32 (u32 m.entries.length + U32 - 1))
          ≤ u32 (u32 m.entries.length + U32 - 1) := Nat.min_le_right _ _
      have hb : u32 (u32 m.entries.length + U32 - 1) < m.entries.length := by
        unfold u32 U32
        omega
      omega
  · exact h

theorem cursor_ok_on_select_entry (m : SelectionMenu σ) (h : cursor_ok m) :
    cursor_ok (on_select_entry m) := by
  unfold on_select_entry cursor_ok
  by_cases h1 : (!m.entries.isEmpty && m.has_on_selection) = true <;>
    by_cases h2 : m.close_on_select = true <;> simp [h1, h2] <;> exact h

theorem cursor_ok_on_keypress (size_bits : Nat) (m : SelectionMenu σ) (key : SDLKey)
    (h : cursor_ok m) : cursor_ok (on_keypress size_bits m key) := by
  cases key with
  | SW_BTN_A => exact cursor_ok_on_select_entry m h
  | SW_BTN_B => exact h
  | other code =>
    simp only [on_keypress]
    split
    · exact h
    · exact h
  | SW_BTN_UP => exact cursor_ok_on_move_up m _ h
  | SW_BTN_LEFT => exact cursor_ok_on_move_up m _ h
  | SW_BTN_L1 => exact cursor_ok_on_move_up m _ h
  | SW_BTN_DOWN => exact cursor_ok_on_move_down size_bits m _ h
  | SW_BTN_RIGHT => exact cursor_ok_on_move_down size_bits m _ h
  | SW_BTN_R1 => exact cursor_ok_on_move_down size_bits m _ h

theorem cursor_ok_on_keyheld (size_bits : Nat) (throttle : σ → Nat → Bool × σ)
    (m : SelectionMenu σ) (key : SDLKey) (t : Nat) (h : cursor_ok m) :
    cursor_ok (on_keyheld size_bits throttle m key t) := by
  unfold on_keyheld
  split
  · simp only
    split
    · exact cursor_ok_on_keypress size_bits _ key h
    · exact h
  · exact h

theorem cursor_ok_step (size_bits : Nat) (throttle : σ → Nat → Bool × σ)
    (m : SelectionMenu σ) (op : Op) (h : cursor_ok m) :
    cursor_ok (step size_bits throttle m op) := by
  cases op with
  | set_entries es => exact cursor_ok_set_entries m es
  | set_cursor_pos n => exact cursor_ok_set_cursor_pos m n
  | set_cursor_pos_entry e => exact cursor_ok_set_cursor_pos_entry m e h
  | on_keypress k => exact cursor_ok_on_keypress size_bits m k h
  | on_keyheld k t => exact cursor_ok_on_keyheld size_bits throttle m k t h
  | render f =>
    simp only [step, render]
    split
    · exact h
    · exact h
  | close => exact h

theorem cursor_ok_run (size_bits : Nat) (throttle : σ → Nat → Bool × σ)
    (ops : List Op) (m : SelectionMenu σ) (h : cursor_ok m) :
    cursor_ok (run size_bits throttle m ops) := by
  induction ops generalizing m with
  | nil => exact h
  | cons op rest ih =>
    unfold run
    simp only [List.foldl_cons]
    exact ih _ (cursor_ok_step size_bits throttle m op h)

/-- C9. The cursor bound (no entries, or `cursor_pos < entries.size()`) holds
after `set_entries` and after `set_cursor_pos(uint32_t)`, and is preserved by
`set_cursor_pos(string)`, `on_move_up` and `on_move_down` for every step,
`on_select_entry`, `on_keypress`, `on_keyheld` and by every sequence of
operations. Consequently an index that `on_select_entry` passes to the
`on_selection` callback is a valid index into the entries. -/
theorem cursor_bound_invariant (size_bits : Nat) (throttle : σ → Nat → Bool × σ)
    (m : SelectionMenu σ) (h : cursor_ok m) :
    (∀ es, cursor_ok (set_entries m es)) ∧
    (∀ n, cursor_ok (set_cursor_pos m n)) ∧
    (∀ e, cursor_ok (set_cursor_pos_entry m e)) ∧
    (∀ step, cursor_ok (on_move_up m step)) ∧
    (∀ step, cursor_ok (on_move_down size_bits m step)) ∧
    cursor_ok (on_select_entry m) ∧
    (∀ key, cursor_ok (on_keypress size_bits m key)) ∧
    (∀ key t, cursor_ok (on_keyheld size_bits throttle m key t)) ∧
    (∀ ops, cursor_ok (run size_bits throttle m ops)) ∧
    (∀ i, (on_select_entry m).calls = m.calls ++ [Callback.on_selection i] →
      i < m.entries.length) := by
  refine ⟨cursor_ok_set_entries m, cursor_ok_set_cursor_pos m,
    fun e => cursor_ok_set_cursor_pos_entry m e h,
    fun s => cursor_ok_on_move_up m s h,
    fun s => cursor_ok_on_move_down size_bits m s h,
    cursor_ok_on_select_entry m h,
    fun k => cursor_ok_on_keypress size_bits m k h,
    fun k t => cursor_ok_on_keyheld size_bits throttle m k t h,
    fun ops => cursor_ok_run size_bits throttle ops m h, ?_⟩
  intro i hi
  unfold on_select_entry at hi
  by_cases h1 : (!m.entries.isEmpty && m.has_on_selection) = true
  · have hne : m.entries ≠ [] := by
      intro he
      rw [he] at h1
      simp at h1
    have hc : (m.calls ++ [Callback.on_selection m.cursor_pos])
        = m.calls ++ [Callback.on_selection i] := by
      by_cases h2 : m.close_on_select = true <;> simpa [h1, h2] using hi
    have : m.cursor_pos = i := by simpa using hc
    rcases h with h | h
    · exact absurd h hne
    · omega
  · exfalso
    by_cases h2 : m.close_on_select = true <;> simp [h1, h2] at hi

/-- Witness for C9 on the ten-entry menu: the bound survives a wrapping step of
`on_move_down`, and the index passed to `on_selection` is below the size. -/
theorem cursor_bound_invariant_witness :
    cursor_ok ten_entry_menu ∧
    cursor_ok (on_move_down 32 ten_entry_menu 4294967293) ∧
    (on_select_entry ten_entry_menu).calls = [Callback.on_selection 5] ∧
    5 < ten_entry_menu.entries.length :=
  ⟨by decide,
   (cursor_bound_invariant 32 always_accept ten_entry_menu (by decide)).2.2.2.2.1 4294967293,
   by decide,
   (cursor_bound_invariant 32 always_accept ten_entry_menu (by decide)).2.2.2.2.2.2.2.2.2 5
     (by decide)⟩

/-! ## Selection menu: cursor visibility -/

theorem set_cursor_pos_scroll (m : SelectionMenu σ) (n : Nat) :
    (set_cursor_pos m n).scroll_pos =
      (if m.entries.length ≤ m.num_display_lines then 0
       else of_int (max 0 (to_int (if n ≥ m.entries.length then 0 else n)
          - (Int.tdiv (to_int m.num_display_lines) 2 - 1)))) := by
  simp [set_cursor_pos]

theorem cursor_visible_set_cursor_pos (m : SelectionMenu σ) (n : Nat)
    (hn : 2 ≤ m.num_display_lines) (hlen : m.entries.length < 2147483648) :
    cursor_visible (set_cursor_pos m n) := by
  obtain ⟨_, h2, h3⟩ := set_cursor_pos_fields m n
  have h4 := set_cursor_pos_scroll m n
  unfold cursor_visible
  rw [h2, h3, h4]
  by_cases hle : m.entries.length ≤ m.num_display_lines
  · rw [if_pos hle]
    split <;> omega
  · rw [if_neg hle]
    have hc : (if n ≥ m.entries.length then 0 else n) < m.entries.length := by
      split <;> omega
    generalize (if n ≥ m.entries.length then 0 else n) = c at hc ⊢
    have hci : to_int c = (c : Int) := by
      unfold to_int
      rw [if_pos (by omega)]
    have hdi : to_int m.num_display_lines = (m.num_display_lines : Int) := by
      unfold to_int
      rw [if_pos (by omega)]
    rw [hci, hdi, Int.tdiv_eq_ediv (by omega) (by omega)]
    unfold of_int
    omega

theorem cursor_visible_set_entries (m : SelectionMenu σ) (es : List String)
    (hn : 2 ≤ m.num_display_lines) (hlen : es.length < 2147483648) :
    cursor_visible (set_entries m es) := by
  have := cursor_visible_set_cursor_pos { m with entries := es } 0 hn hlen
  unfold cursor_visible at this ⊢
  exact this

theorem cursor_visible_on_move_up (m : SelectionMenu σ) (step : Nat)
    (h : cursor_visible m) : cursor_visible (on_move_up m step) := by
  unfold on_move_up
  split
  · unfold cursor_visible at h ⊢
    simp only [call_on_focus_fields]
    split <;> omega
  · exact h

theorem size_minus_one_le (size_bits : Nat) (m : SelectionMenu σ)
    (h : 0 < m.entries.length) : size_minus_one size_bits m ≤ m.entries.length - 1 := by
  unfold size_minus_one
  generalize 2 ^ size_bits = p
  have : m.entries.length + p - 1 = (m.entries.length - 1) + p := by
    omega
  rw [this, Nat.add_mod_right]
  exact Nat.mod_le _ _

theorem cursor_visible_on_move_down (size_bits : Nat) (m : SelectionMenu σ) (step : Nat)
    (h : cursor_visible m) (hlen : m.entries.length < 2147483648)
    (hscroll : m.scroll_pos + m.num_display_lines < U32)
    (hstep : m.cursor_pos + step < U32) :
    cursor_visible (on_move_down size_bits m step) := by
  unfold on_move_down
  split
  · rename_i hguard
    unfold cursor_visible at h ⊢
    simp only [call_on_focus_fields]
    have hg : m.entries.length = 0 ∨ m.cursor_pos < m.entries.length - 1 := by
      by_cases h0 : m.entries.length = 0
      · left; exact h0
      · right
        have := size_minus_one_le size_bits m (by omega)
        omega
    clear hguard
    unfold u32 U32 at *
    split <;> omega
  · exact h

theorem render_rows_highlight (m : SelectionMenu σ) (j : Nat) (k i : Nat)
    (hij : i ≤ j) (hjk : j < i + k)
    (hin : ∀ r, i ≤ r → r ≤ j → u32 (r + m.scroll_pos) < m.entries.length)
    (hcur : u32 (j + m.scroll_pos) = m.cursor_pos) :
    DrawOp.highlight j m.cursor_pos ∈ render_rows m k i := by
  induction k generalizing i with
  | zero => omega
  | succ n ih =>
    unfold render_rows
    simp only
    rw [if_neg (by have := hin i (Nat.le_refl _) hij; omega)]
    by_cases hj : i = j
    · subst hj
      rw [hcur]
      simp
    · apply List.mem_append_right
      apply List.mem_cons_of_mem
      exact ih (i + 1) (by omega) (by omega) (fun r h1 h2 => hin r (by omega) h2)

theorem render_draws_cursor (m : SelectionMenu σ) (h : cursor_visible m) (hok : cursor_ok m)
    (hne : m.entries ≠ []) (hscroll : m.scroll_pos + m.num_display_lines ≤ U32) :
    DrawOp.highlight (m.cursor_pos - m.scroll_pos) m.cursor_pos ∈ (render m true).2.1 := by
  unfold cursor_visible at h
  have hlt : m.cursor_pos < m.entries.length := by
    rcases hok with h0 | h0
    · exact absurd h0 hne
    · exact h0
  have hr : (render m true).2.1
      = DrawOp.clear_screen :: render_rows m m.num_display_lines 0 := by
    simp [render]
  rw [hr]
  apply List.mem_cons_of_mem
  apply render_rows_highlight m _ _ 0 (Nat.zero_le _) (by omega)
  · intro r _ hr2
    unfold u32 U32 at *
    omega
  · unfold u32 U32 at *
    omega

/-- C10 (amended). For every menu with `num_display_lines ≥ 2`: the cursor is
visible (`scroll_pos ≤ cursor_pos < scroll_pos + num_display_lines`) after
`set_entries` and after `set_cursor_pos(uint32_t)` for every argument when
there are fewer than `2^31` entries; visibility is preserved by `on_move_up`
for every step, and by `on_move_down` for every step whose addition to the
cursor does not wrap around `2^32` (with fewer than `2^31` entries and
`scroll_pos + num_display_lines < 2^32`); and when the cursor is visible and
within the non-empty entries, `render` draws the highlighted cursor row. -/
theorem cursor_visible_invariant (size_bits : Nat) (m : SelectionMenu σ)
    (hn : 2 ≤ m.num_display_lines) :
    (∀ es : List String, es.length < 2147483648 → cursor_visible (set_entries m es)) ∧
    (m.entries.length < 2147483648 → ∀ n, cursor_visible (set_cursor_pos m n)) ∧
    (cursor_visible m → ∀ step, cursor_visible (on_move_up m step)) ∧
    (cursor_visible m → m.entries.length < 2147483648 →
      m.scroll_pos + m.num_display_lines < U32 →
      ∀ step, m.cursor_pos + step < U32 →
        cursor_visible (on_move_down size_bits m step)) ∧
    (cursor_visible m → cursor_ok m → m.entries ≠ [] →
      m.scroll_pos + m.num_display_lines ≤ U32 →
      DrawOp.highlight (m.cursor_pos - m.scroll_pos) m.cursor_pos ∈ (render m true).2.1) :=
  ⟨fun es hes => cursor_visible_set_entries m es hn hes,
   fun hlen n => cursor_visible_set_cursor_pos m n hn hlen,
   fun h step => cursor_visible_on_move_up m step h,
   fun h hlen hs step hst => cursor_visible_on_move_down size_bits m step h hlen hs hst,
   fun h hok hne hs => render_draws_cursor m h hok hne hs⟩

/-- Witness for C10 (amended) on the ten-entry menu. -/
theorem cursor_visible_invariant_witness :
    2 ≤ ten_entry_menu.num_display_lines ∧
    cursor_visible (set_cursor_pos ten_entry_menu 7) ∧
    cursor_visible (on_move_down 32 ten_entry_menu 3) ∧
    DrawOp.highlight 1 5 ∈ (render ten_entry_menu true).2.1 :=
  ⟨by decide,
   (cursor_visible_invariant 32 ten_entry_menu (by decide)).2.1 (by decide) 7,
   (cursor_visible_invariant 32 ten_entry_menu (by decide)).2.2.2.1
     (by decide) (by decide) (by decide) 3 (by decide),
   (cursor_visible_invariant 32 ten_entry_menu (by decide)).2.2.2.2
     (by decide) (by decide) (by decide) (by decide)⟩

/-- C10, as stated, fails: the ten-entry menu shows two rows with the cursor
visible on entry 5; `on_move_down` with the step `2^32 - 3` wraps the cursor
round to entry 2 and leaves `scroll_pos` at 4, so the cursor is no longer
visible and `render` draws rows 4 and 5 without a highlighted row. -/
theorem cursor_visible_counterexample :
    2 ≤ ten_entry_menu.num_display_lines ∧
    cursor_visible ten_entry_menu ∧ cursor_ok ten_entry_menu ∧
    ¬ cursor_visible (on_move_down 32 ten_entry_menu 4294967293) ∧
    ¬ cursor_visible (on_move_down 64 ten_entry_menu 4294967293) ∧
    (on_move_down 32 ten_entry_menu 4294967293).cursor_pos = 2 ∧
    (on_move_down 32 ten_entry_menu 4294967293).scroll_pos = 4 ∧
    (render (on_move_down 32 ten_entry_menu 4294967293) true).2.1 =
      [DrawOp.clear_screen, DrawOp.text 0 4 "e4" false, DrawOp.text 1 5 "e5" false] := by
  decide

/-- With `2^31 + 1` entries (possible only where `size_t` has 64 bits) the
`int` conversion in `set_cursor_pos` turns negative: the cursor set on entry
`2^31` is left outside the displayed rows. -/
theorem cursor_hidden_with_many_entries :
    ¬ cursor_visible (set_cursor_pos
      { ten_entry_menu with entries := List.replicate 2147483649 "e" } 2147483648) := by
  unfold cursor_visible
  rw [(set_cursor_pos_fields _ _).2.2, (set_cursor_pos_fields _ _).2.1, set_cursor_pos_scroll]
  simp only [List.length_replicate, ten_entry_menu]
  decide

end SelectionMenu

namespace FontCatalog

/-! ## Font catalog: populate-once discovery -/

theorem discover_fonts_nonempty (env : FontEnv) (fonts : List String) (h : fonts ≠ []) :
    discover_fonts env fonts = Except.ok fonts := by
  unfold discover_fonts
  have : fonts.length ≠ 0 := by
    intro h0
    exact h (List.length_eq_zero.mp h0)
  rw [if_pos this]

theorem discover_fonts_ok (env : FontEnv) (avail fonts : List String)
    (h : discover_fonts env avail = Except.ok fonts) :
    fonts ≠ [] ∧ (avail ≠ [] → fonts = avail) := by
  unfold discover_fonts at h
  split at h
  · rename_i hne
    injection h with h
    subst h
    exact ⟨fun h0 => hne (by rw [h0]; rfl), fun _ => rfl⟩
  · rename_i hne
    have hav : avail = [] := by
      apply List.length_eq_zero.mp
      simpa using hne
    simp only at h
    split at h
    · cases h
    · rename_i hf
      injection h with h
      subst h
      refine ⟨?_, fun hn => absurd hav hn⟩
      intro h0
      rw [h0] at hf
      simp at hf

theorem get_font_index_ok (env : FontEnv) (avail fonts : List String) (name : String)
    (i : Int) (h : get_font_index env avail name = Except.ok (i, fonts)) :
    discover_fonts env avail = Except.ok fonts := by
  unfold get_font_index at h
  cases hd : discover_fonts env avail with
  | error e => rw [hd] at h; cases h
  | ok f =>
    rw [hd] at h
    simp only at h
    split at h <;> (injection h with h; injection h with _ h2; rw [h2])

theorem get_font_index_nonempty (env : FontEnv) (fonts : List String) (name : String)
    (h : fonts ≠ []) : ∃ i, get_font_index env fonts name = Except.ok (i, fonts) := by
  unfold get_font_index
  rw [discover_fonts_nonempty env fonts h]
  simp only
  split
  · exact ⟨_, rfl⟩
  · exact ⟨_, rfl⟩

theorem get_valid_font_name_ok (env : FontEnv) (avail fonts : List String)
    (name res : String) (h : get_valid_font_name env avail name = Except.ok (res, fonts)) :
    discover_fonts env avail = Except.ok fonts := by
  unfold get_valid_font_name at h
  cases h1 : get_font_index env avail name with
  | error e => rw [h1] at h; cases h
  | ok r =>
    obtain ⟨i, f1⟩ := r
    rw [h1] at h
    simp only at h
    have hd1 := get_font_index_ok env avail f1 name i h1
    split at h
    · cases h2 : get_font_index env f1 env.DEFAULT_FONT_NAME with
      | error e => rw [h2] at h; cases h
      | ok r2 =>
        obtain ⟨j, f2⟩ := r2
        rw [h2] at h
        simp only at h
        injection h with h
        injection h with _ hf
        subst hf
        have hd2 := get_font_index_ok env f1 f2 _ j h2
        have hne := (discover_fonts_ok env avail f1 hd1).1
        have := (discover_fonts_ok env f1 f2 hd2).2 hne
        rw [this]
        exact hd1
    · injection h with h
      injection h with _ hf
      subst hf
      exact hd1

theorem get_prev_font_name_ok (size_bits : Nat) (env : FontEnv) (avail fonts : List String)
    (name res : String)
    (h : get_prev_font_name size_bits env avail name = Except.ok (res, fonts)) :
    discover_fonts env avail = Except.ok fonts := by
  unfold get_prev_font_name at h
  cases h1 : get_font_index env avail name with
  | error e => rw [h1] at h; cases h
  | ok r =>
    obtain ⟨i, f1⟩ := r
    rw [h1] at h
    simp only at h
    injection h with h
    injection h with _ hf
    subst hf
    exact get_font_index_ok env avail f1 name i h1

theorem get_next_font_name_ok (size_bits : Nat) (env : FontEnv) (avail fonts : List String)
    (name res : String)
    (h : get_next_font_name size_bits env avail name = Except.ok (res, fonts)) :
    discover_fonts env avail = Except.ok fonts := by
  unfold get_next_font_name at h
  cases h1 : get_font_index env avail name with
  | error e => rw [h1] at h; cases h
  | ok r =>
    obtain ⟨i, f1⟩ := r
    rw [h1] at h
    simp only at h
    injection h with h
    injection h with _ hf
    subst hf
    exact get_font_index_ok env avail f1 name i h1

theorem later_calls_keep_list (size_bits : Nat) (env : FontEnv) (fonts : List String)
    (name : String) (h : fonts ≠ []) :
    (∃ r, get_valid_font_name env fonts name = Except.ok (r, fonts)) ∧
    (∃ r, get_prev_font_name size_bits env fonts name = Except.ok (r, fonts)) ∧
    (∃ r, get_next_font_name size_bits env fonts name = Except.ok (r, fonts)) := by
  obtain ⟨i, hi⟩ := get_font_index_nonempty env fonts name h
  obtain ⟨j, hj⟩ := get_font_index_nonempty env fonts env.DEFAULT_FONT_NAME h
  refine ⟨?_, ?_, ?_⟩
  · unfold get_valid_font_name
    rw [hi]
    simp only
    split
    · rw [hj]
      exact ⟨_, rfl⟩
    · exact ⟨_, rfl⟩
  · unfold get_prev_font_name
    rw [hi]
    exact ⟨_, rfl⟩
  · unfold get_next_font_name
    rw [hi]
    exact ⟨_, rfl⟩

theorem failed_discovery_fails_all (size_bits : Nat) (env : FontEnv) (name : String)
    (h : discover_fonts env [] = Except.error "No fonts found") :
    get_valid_font_name env [] name = Except.error "No fonts found" ∧
    get_prev_font_name size_bits env [] name = Except.error "No fonts found" ∧
    get_next_font_name size_bits env [] name = Except.error "No fonts found" := by
  have hi : get_font_index env [] name = Except.error "No fonts found" := by
    unfold get_font_index
    rw [h]
  refine ⟨?_, ?_, ?_⟩
  · unfold get_valid_font_name
    rw [hi]
  · unfold get_prev_font_name
    rw [hi]
  · unfold get_next_font_name
    rw [hi]

/-- C6. Font discovery is populate-once. When the list of available fonts is
already non-empty, `discover_fonts` returns without changing it. When the list
is empty, discovery fails with the error "No fonts found" exactly when the
scan finds no font, and then each of `get_valid_font_name`,
`get_prev_font_name` and `get_next_font_name` fails with that error. After a
successful call of any of the three the list is non-empty, and every later
call of any of them, whatever the file system then holds, succeeds and leaves
exactly the same list. -/
theorem discover_fonts_populate_once (size_bits : Nat) (env : FontEnv)
    (available_fonts : List String) :
    (available_fonts ≠ [] →
      discover_fonts env available_fonts = Except.ok available_fonts) ∧
    (discover_fonts env [] = Except.error "No fonts found" ↔ scan_fonts env [] = []) ∧
    (scan_fonts env [] = [] → ∀ name,
      get_valid_font_name env [] name = Except.error "No fonts found" ∧
      get_prev_font_name size_bits env [] name = Except.error "No fonts found" ∧
      get_next_font_name size_bits env [] name = Except.error "No fonts found") ∧
    (∀ (name res : String) (fonts : List String),
      (get_valid_font_name env available_fonts name = Except.ok (res, fonts) ∨
       get_prev_font_name size_bits env available_fonts name = Except.ok (res, fonts) ∨
       get_next_font_name size_bits env available_fonts name = Except.ok (res, fonts)) →
      fonts ≠ [] ∧ (available_fonts ≠ [] → fonts = available_fonts) ∧
      ∀ (env2 : FontEnv) (bits2 : Nat) (name2 : String),
        (∃ r, get_valid_font_name env2 fonts name2 = Except.ok (r, fonts)) ∧
        (∃ r, get_prev_font_name bits2 env2 fonts name2 = Except.ok (r, fonts)) ∧
        (∃ r, get_next_font_name bits2 env2 fonts name2 = Except.ok (r, fonts))) := by
  have hiff : discover_fonts env [] = Except.error "No fonts found" ↔ scan_fonts env [] = [] := by
    unfold discover_fonts
    simp only [List.length_nil, ne_eq, not_true_eq_false, if_false]
    constructor
    · intro h
      split at h
      · rename_i he
        simpa using he
      · cases h
    · intro h
      rw [h]
      rfl
  refine ⟨discover_fonts_nonempty env available_fonts, hiff, ?_, ?_⟩
  · intro hs name
    exact failed_discovery_fails_all size_bits env name (hiff.mpr hs)
  · intro name res fonts h
    have hd : discover_fonts env available_fonts = Except.ok fonts := by
      rcases h with h | h | h
      · exact get_valid_font_name_ok env _ _ _ _ h
      · exact get_prev_font_name_ok size_bits env _ _ _ _ h
      · exact get_next_font_name_ok size_bits env _ _ _ _ h
    obtain ⟨hne, hsame⟩ := discover_fonts_ok env _ _ hd
    exact ⟨hne, hsame, fun env2 bits2 name2 => later_calls_keep_list bits2 env2 fonts name2 hne⟩

/-- Witness for C6: the first call populates the list from the sample file
system; a later call keeps it although the file system is then empty; with
no font at all the call fails with "No fonts found". -/
theorem discover_fonts_populate_once_witness :
    get_valid_font_name sample_env [] "missing" = Except.ok ("fonts/a.TTF", ["fonts/a.TTF"]) ∧
    (∃ r, get_next_font_name 32 empty_env ["fonts/a.TTF"] "fonts/a.TTF"
      = Except.ok (r, ["fonts/a.TTF"])) ∧
    get_valid_font_name empty_env [] "missing" = Except.error "No fonts found" :=
  ⟨rfl,
   ((discover_fonts_populate_once 32 sample_env []).2.2.2 "missing" "fonts/a.TTF"
      ["fonts/a.TTF"] (Or.inl rfl)).2.2 empty_env 32 "fonts/a.TTF" |>.2.2,
   ((discover_fonts_populate_once 32 empty_env []).2.2.1 (by decide) "missing").1⟩

end FontCatalog

namespace SelectionMenu

variable {σ : Type}

/-! ## Selection menu: the styling subscription -/

theorem call_on_focus_sub_id (m : SelectionMenu σ) :
    (call_on_focus m).styling_sub_id = m.styling_sub_id := by
  unfold call_on_focus
  split <;> rfl

theorem set_cursor_pos_sub_id (m : SelectionMenu σ) (n : Nat) :
    (set_cursor_pos m n).styling_sub_id = m.styling_sub_id := by
  simp [set_cursor_pos, call_on_focus_sub_id]

theorem on_keypress_sub_id (size_bits : Nat) (m : SelectionMenu σ) (key : SDLKey) :
    (on_keypress size_bits m key).styling_sub_id = m.styling_sub_id := by
  have hup : ∀ step, (on_move_up m step).styling_sub_id = m.styling_sub_id := by
    intro step
    unfold on_move_up
    split <;> simp [call_on_focus_sub_id]
  have hdown : ∀ step, (on_move_down size_bits m step).styling_sub_id = m.styling_sub_id := by
    intro step
    unfold on_move_down
    split <;> simp [call_on_focus_sub_id]
  cases key with
  | SW_BTN_A =>
    simp only [on_keypress, on_select_entry]
    by_cases h1 : (!m.entries.isEmpty && m.has_on_selection) = true <;>
      by_cases h2 : m.close_on_select = true <;> simp [h1, h2]
  | other code =>
    simp only [on_keypress]
    split <;> rfl
  | SW_BTN_B => rfl
  | _ => simp only [on_keypress, hup, hdown]

theorem step_sub_id (size_bits : Nat) (throttle : σ → Nat → Bool × σ)
    (m : SelectionMenu σ) (op : Op) :
    (step size_bits throttle m op).styling_sub_id = m.styling_sub_id := by
  cases op with
  | set_entries es => simp [step, set_entries, set_cursor_pos_sub_id]
  | set_cursor_pos n => simp [step, set_cursor_pos_sub_id]
  | set_cursor_pos_entry e =>
    simp only [step, set_cursor_pos_entry]
    split
    · split
      · exact set_cursor_pos_sub_id m _
      · rfl
    · rfl
  | on_keypress k => exact on_keypress_sub_id size_bits m k
  | on_keyheld k t =>
    simp only [step, on_keyheld]
    split
    · split
      · exact on_keypress_sub_id size_bits _ k
      · rfl
    · rfl
  | render f =>
    simp only [step, render]
    split <;> rfl
  | close => rfl

theorem run_sub_id (size_bits : Nat) (throttle : σ → Nat → Bool × σ)
    (ops : List Op) (m : SelectionMenu σ) :
    (run size_bits throttle m ops).styling_sub_id = m.styling_sub_id := by
  induction ops generalizing m with
  | nil => rfl
  | cons op rest ih =>
    unfold run at ih ⊢
    simp only [List.foldl_cons]
    rw [ih, step_sub_id]

/-- C12. The menu keeps the subscribe/unsubscribe contract of the styling
registry, whatever the registry is. Construction (by either constructor)
performs exactly one `subscribe_to_changes`, with the callback that sets
`needs_render`, and stores the id returned. No operation on the menu changes
that id, so destruction performs `unsubscribe_from_changes` with exactly the
id that `subscribe_to_changes` returned. Firing the registered callback sets
`needs_render` to true and changes nothing else, so the next
`render(dest, false)` returns true. -/
theorem styling_subscription_contract {ρ : Type} (ops : StylingOps ρ σ) (styling : ρ)
    (defaults : MemberDefaults) (entries : List String) (num_display_lines : Nat)
    (scroll_throttle : σ) (size_bits : Nat) (throttle : σ → Nat → Bool × σ) :
    (construct ops styling defaults entries num_display_lines scroll_throttle).2
      = (ops.subscribe_to_changes styling on_styling_changed).2 ∧
    (construct ops styling defaults entries num_display_lines scroll_throttle).1.styling_sub_id
      = (ops.subscribe_to_changes styling on_styling_changed).1 ∧
    construct_no_entries ops styling defaults num_display_lines scroll_throttle
      = construct ops styling defaults [] num_display_lines scroll_throttle ∧
    (∀ (menu_ops : List Op) (later : ρ),
      destruct ops
        (run size_bits throttle
          (construct ops styling defaults entries num_display_lines scroll_throttle).1
          menu_ops) later
        = ops.unsubscribe_from_changes later
            (ops.subscribe_to_changes styling on_styling_changed).1) ∧
    (∀ m : SelectionMenu σ,
      on_styling_changed m = { m with needs_render := true } ∧
      (render (on_styling_changed m) false).1 = true ∧
      (render (render (on_styling_changed m) false).2.2 false).1 = false) := by
  refine ⟨rfl, rfl, rfl, ?_, ?_⟩
  · intro menu_ops later
    unfold destruct
    rw [run_sub_id]
    rfl
  · intro m
    refine ⟨rfl, ?_, ?_⟩ <;> simp [render, on_styling_changed]

/-- Witness for C12 with the example registry, whose next free id is 3: after
construction there is one live subscription, with id 3; a styling change then
makes the next `render(dest, false)` return true; after some key presses the
destruction leaves no live subscription. -/
theorem styling_subscription_contract_witness :
    ((construct list_registry (3, []) rendered_defaults ["a", "b"] 2 ()).2.2.map
        (fun sub => sub.id)) = [3] ∧
    (render (fire_changes
        (construct list_registry (3, []) rendered_defaults ["a", "b"] 2 ()).2.2
        (construct list_registry (3, []) rendered_defaults ["a", "b"] 2 ()).1) false).1
      = true ∧
    (destruct list_registry
        (run 32 always_accept
          (construct list_registry (3, []) rendered_defaults ["a", "b"] 2 ()).1
          [Op.on_keypress SDLKey.SW_BTN_DOWN, Op.on_keypress SDLKey.SW_BTN_A])
        (construct list_registry (3, []) rendered_defaults ["a", "b"] 2 ()).2).2.length
      = 0 ∧
    destruct list_registry
        (run 32 always_accept
          (construct list_registry (3, []) rendered_defaults ["a", "b"] 2 ()).1
          [Op.on_keypress SDLKey.SW_BTN_DOWN, Op.on_keypress SDLKey.SW_BTN_A])
        (construct list_registry (3, []) rendered_defaults ["a", "b"] 2 ()).2
      = list_registry.unsubscribe_from_changes
          (construct list_registry (3, []) rendered_defaults ["a", "b"] 2 ()).2 3 :=
  ⟨rfl, rfl, rfl,
   (styling_subscription_contract list_registry (3, []) rendered_defaults ["a", "b"] 2 ()
      32 always_accept).2.2.2.1 _ _⟩

end SelectionMenu

namespace FontCatalog

/-! ## Font catalog: the fallback order of `get_valid_font_name` -/

theorem find_pos_le (name : String) (fonts : List String) :
    find_pos name fonts ≤ fonts.length := by
  induction fonts with
  | nil => simp [find_pos]
  | cons f rest ih =>
    unfold find_pos
    split
    · simp
    · simp only [List.length_cons]; omega

theorem find_pos_lt_iff (name : String) (fonts : List String) :
    find_pos name fonts < fonts.length ↔ name ∈ fonts := by
  induction fonts with
  | nil => simp [find_pos]
  | cons f rest ih =>
    unfold find_pos
    by_cases hf : f = name
    · simp [hf]
    · rw [if_neg hf]
      simp only [List.length_cons, List.mem_cons]
      constructor
      · intro h
        right
        exact ih.mp (by omega)
      · rintro (h | h)
        · exact absurd h.symm hf
        · have := ih.mpr h
          omega

theorem getD_find_pos (name : String) (fonts : List String) (h : name ∈ fonts) :
    fonts.getD (find_pos name fonts) "" = name := by
  induction fonts with
  | nil => simp at h
  | cons f rest ih =>
    unfold find_pos
    by_cases hf : f = name
    · simp [hf]
    · rw [if_neg hf]
      rcases List.mem_cons.mp h with h | h
      · exact absurd h.symm hf
      · simpa using ih h

theorem find_pos_getD_le (fonts : List String) (k : Nat) (hk : k < fonts.length) :
    find_pos (fonts.getD k "") fonts ≤ k := by
  induction fonts generalizing k with
  | nil => simp at hk
  | cons f rest ih =>
    cases k with
    | zero => simp [find_pos]
    | succ n =>
      unfold find_pos
      split
      · omega
      · have := ih n (by simpa using hk)
        simpa using this

theorem getD_mem (fonts : List String) (k : Nat) (hk : k < fonts.length) :
    fonts.getD k "" ∈ fonts := by
  rw [List.getD_eq_getElem _ _ hk]
  exact List.getElem_mem hk

theorem get_font_index_of_nonempty (env : FontEnv) (fonts : List String) (name : String)
    (hne : fonts ≠ []) :
    get_font_index env fonts name =
      Except.ok (if u32 (find_pos name fonts) ≥ fonts.length then -1
        else to_int (u32 (find_pos name fonts)), fonts) := by
  unfold get_font_index
  rw [discover_fonts_nonempty env fonts hne]
  simp only
  split <;> rfl

theorem to_int_neg_iff (n : Nat) (h : n < 4294967296) :
    (to_int n < 0 ↔ 2147483648 ≤ n) ∧ (to_int n).toNat = (if n < 2147483648 then n else 0) := by
  unfold to_int
  split
  · constructor
    · constructor <;> intro h1 <;> omega
    · simp
  · constructor
    · constructor <;> intro h1 <;> omega
    · omega

theorem u32_lt (n : Nat) : u32 n < 4294967296 := by
  unfold u32 U32
  omega

theorem get_valid_font_name_pick (env : FontEnv) (fonts : List String) (p : String)
    (hne : fonts ≠ []) :
    ∃ k, k < fonts.length ∧ k < 2147483648 ∧
      get_valid_font_name env fonts p = Except.ok (fonts.getD k "", fonts) ∧
      ((u32 (find_pos p fonts) < fonts.length ∧ u32 (find_pos p fonts) < 2147483648 →
        k = u32 (find_pos p fonts)) ∧
       (¬ (u32 (find_pos p fonts) < fonts.length ∧ u32 (find_pos p fonts) < 2147483648) →
        (u32 (find_pos env.DEFAULT_FONT_NAME fonts) < fonts.length ∧
            u32 (find_pos env.DEFAULT_FONT_NAME fonts) < 2147483648 →
          k = u32 (find_pos env.DEFAULT_FONT_NAME fonts)) ∧
        (¬ (u32 (find_pos env.DEFAULT_FONT_NAME fonts) < fonts.length ∧
            u32 (find_pos env.DEFAULT_FONT_NAME fonts) < 2147483648) → k = 0))) := by
  have hpos : 0 < fonts.length := List.length_pos.mpr hne
  unfold get_valid_font_name
  rw [get_font_index_of_nonempty env fonts p hne]
  simp only
  rw [get_font_index_of_nonempty env fonts env.DEFAULT_FONT_NAME hne]
  simp only
  generalize hi : u32 (find_pos p fonts) = i
  generalize hj : u32 (find_pos env.DEFAULT_FONT_NAME fonts) = j
  have hi32 : i < 4294967296 := by rw [← hi]; exact u32_lt _
  have hj32 : j < 4294967296 := by rw [← hj]; exact u32_lt _
  obtain ⟨hin, hit⟩ := to_int_neg_iff i hi32
  obtain ⟨hjn, hjt⟩ := to_int_neg_iff j hj32
  by_cases h1 : i < fonts.length ∧ i < 2147483648
  · refine ⟨i, h1.1, h1.2, ?_, fun _ => rfl, fun h => absurd h1 h⟩
    have hnn : ¬ (to_int i < 0) := by rw [hin]; omega
    have hc : (if i ≥ fonts.length then (-1 : Int) else to_int i) = to_int i :=
      if_neg (by omega)
    rw [hc, if_neg hnn, hit, if_pos h1.2]
  · have hneg : (if i ≥ fonts.length then (-1 : Int) else to_int i) < 0 := by
      split
      · omega
      · rw [hin]; omega
    rw [if_pos hneg]
    by_cases h2 : j < fonts.length ∧ j < 2147483648
    · refine ⟨j, h2.1, h2.2, ?_, fun h => absurd h h1, fun _ => ⟨fun _ => rfl, fun h => absurd h2 h⟩⟩
      have hnn : ¬ (to_int j < 0) := by rw [hjn]; omega
      have hc : (if j ≥ fonts.length then (-1 : Int) else to_int j) = to_int j :=
        if_neg (by omega)
      rw [hc, if_neg hnn, hjt, if_pos h2.2]
    · refine ⟨0, hpos, by omega, ?_, fun h => absurd h h1, fun _ => ⟨fun h => absurd h h2, fun _ => rfl⟩⟩
      have hneg2 : (if j ≥ fonts.length then (-1 : Int) else to_int j) < 0 := by
        split
        · omega
        · rw [hjn]; omega
      rw [if_pos hneg2]
      rfl

theorem get_valid_font_name_of_early (env : FontEnv) (fonts : List String) (name : String)
    (hmem : name ∈ fonts) (hpos : find_pos name fonts < 2147483648) :
    get_valid_font_name env fonts name = Except.ok (name, fonts) := by
  have hne : fonts ≠ [] := by
    intro h0
    rw [h0] at hmem
    simp at hmem
  have hlt := (find_pos_lt_iff name fonts).mpr hmem
  have hu : u32 (find_pos name fonts) = find_pos name fonts := by
    unfold u32 U32
    omega
  obtain ⟨k, _, _, hk, hcase, _⟩ := get_valid_font_name_pick env fonts name hne
  rw [hu] at hcase
  rw [hk, hcase ⟨hlt, hpos⟩, getD_find_pos name fonts hmem]

theorem find_pos_replicate_append (name x : String) (rest : List String) (n : Nat)
    (hx : x ≠ name) :
    find_pos name (List.replicate n x ++ rest) = n + find_pos name rest := by
  induction n with
  | zero => simp
  | succ m ih =>
    rw [List.replicate_succ, List.cons_append, find_pos, if_neg hx, ih]
    omega

theorem getD_zero_replicate_append (x d : String) (rest : List String) (n : Nat)
    (hn : 0 < n) : (List.replicate n x ++ rest).getD 0 d = x := by
  obtain ⟨m, rfl⟩ : ∃ m, n = m + 1 := ⟨n - 1, by omega⟩
  rw [List.replicate_succ, List.cons_append]
  rfl

/-- C11 (amended). For every non-empty list `L` of discovered fonts and every
preferred name `p`, `get_valid_font_name` leaves the list as it is and returns
an element `r` of `L` on which it is idempotent. When `L` has fewer than
`2^31` fonts, `r` follows the fallback order: `p` itself if `p` is in `L`;
otherwise `DEFAULT_FONT_NAME` if that is in `L`; otherwise the first element
of `L`. -/
theorem get_valid_font_name_fallback (env : FontEnv) (fonts : List String) (p : String)
    (hne : fonts ≠ []) :
    ∃ r, get_valid_font_name env fonts p = Except.ok (r, fonts) ∧ r ∈ fonts ∧
      get_valid_font_name env fonts r = Except.ok (r, fonts) ∧
      (fonts.length < 2147483648 →
        (p ∈ fonts → r = p) ∧
        (p ∉ fonts → env.DEFAULT_FONT_NAME ∈ fonts → r = env.DEFAULT_FONT_NAME) ∧
        (p ∉ fonts → env.DEFAULT_FONT_NAME ∉ fonts → fonts.head? = some r)) := by
  obtain ⟨k, hk1, hk2, hk, hA, hB⟩ := get_valid_font_name_pick env fonts p hne
  refine ⟨fonts.getD k "", hk, getD_mem fonts k hk1, ?_, ?_⟩
  · apply get_valid_font_name_of_early env fonts _ (getD_mem fonts k hk1)
    have := find_pos_getD_le fonts k hk1
    omega
  · intro hlen
    have hup : u32 (find_pos p fonts) = find_pos p fonts := by
      have := find_pos_le p fonts
      unfold u32 U32
      omega
    have hud : u32 (find_pos env.DEFAULT_FONT_NAME fonts)
        = find_pos env.DEFAULT_FONT_NAME fonts := by
      have := find_pos_le env.DEFAULT_FONT_NAME fonts
      unfold u32 U32
      omega
    rw [hup] at hA hB
    rw [hud] at hB
    have hlp := find_pos_le p fonts
    have hld := find_pos_le env.DEFAULT_FONT_NAME fonts
    refine ⟨?_, ?_, ?_⟩
    · intro hp
      have hlt := (find_pos_lt_iff p fonts).mpr hp
      rw [hA ⟨hlt, by omega⟩]
      exact getD_find_pos p fonts hp
    · intro hp hd
      have hnlt : ¬ find_pos p fonts < fonts.length :=
        fun h => hp ((find_pos_lt_iff p fonts).mp h)
      have hlt := (find_pos_lt_iff env.DEFAULT_FONT_NAME fonts).mpr hd
      rw [(hB (fun h => hnlt h.1)).1 ⟨hlt, by omega⟩]
      exact getD_find_pos _ fonts hd
    · intro hp hd
      have hnlt : ¬ find_pos p fonts < fonts.length :=
        fun h => hp ((find_pos_lt_iff p fonts).mp h)
      have hnld : ¬ find_pos env.DEFAULT_FONT_NAME fonts < fonts.length :=
        fun h => hd ((find_pos_lt_iff _ fonts).mp h)
      rw [(hB (fun h => hnlt h.1)).2 (fun h => hnld h.1)]
      cases fonts with
      | nil => exact absurd rfl hne
      | cons f rest => rfl

/-- Witness for C11 (amended) on a list of three fonts whose second is the
default font: a listed name is returned as it is, an unknown name falls back
to the default font. -/
theorem get_valid_font_name_fallback_witness :
    get_valid_font_name sample_env ["x.ttf", "fonts/a.TTF", "y.ttf"] "y.ttf"
      = Except.ok ("y.ttf", ["x.ttf", "fonts/a.TTF", "y.ttf"]) ∧
    get_valid_font_name sample_env ["x.ttf", "fonts/a.TTF", "y.ttf"] "missing"
      = Except.ok ("fonts/a.TTF", ["x.ttf", "fonts/a.TTF", "y.ttf"]) ∧
    ∃ r, get_valid_font_name sample_env ["x.ttf", "fonts/a.TTF", "y.ttf"] "y.ttf"
        = Except.ok (r, ["x.ttf", "fonts/a.TTF", "y.ttf"]) ∧
      r ∈ ["x.ttf", "fonts/a.TTF", "y.ttf"] :=
  ⟨rfl, rfl,
   (get_valid_font_name_fallback sample_env ["x.ttf", "fonts/a.TTF", "y.ttf"] "y.ttf"
      (by decide)).imp (fun _ h => ⟨h.1, h.2.1⟩)⟩

/-- C11, as stated, fails: in the list of `2^31` fonts `a` followed by the
font `p`, the preferred name `p` is listed, at index `2^31`; as an `int` that
index is negative, so `get_valid_font_name` falls back and, the default font
being absent, returns the first element `a`. -/
theorem get_valid_font_name_counterexample :
    many_fonts ≠ [] ∧ "p" ∈ many_fonts ∧
    sample_env.DEFAULT_FONT_NAME ∉ many_fonts ∧
    get_valid_font_name sample_env many_fonts "p" = Except.ok ("a", many_fonts) := by
  have hlen : many_fonts.length = 2147483649 := by
    rw [many_fonts, List.length_append, List.length_replicate]
    rfl
  have hne : many_fonts ≠ [] := by
    intro h
    rw [h] at hlen
    exact absurd hlen (by decide)
  have hp : find_pos "p" many_fonts = 2147483648 := by
    unfold many_fonts
    rw [find_pos_replicate_append "p" "a" ["p"] 2147483648 (by decide)]
    rfl
  have hd : find_pos sample_env.DEFAULT_FONT_NAME many_fonts = 2147483649 := by
    unfold many_fonts
    rw [find_pos_replicate_append _ "a" ["p"] 2147483648 (by decide)]
    rfl
  refine ⟨hne, ?_, ?_, ?_⟩
  · rw [← find_pos_lt_iff, hp, hlen]
    omega
  · rw [← find_pos_lt_iff, hd, hlen]
    omega
  · obtain ⟨k, _, _, hk, _, hB⟩ := get_valid_font_name_pick sample_env many_fonts "p" hne
    have hk0 : k = 0 := by
      apply (hB ?_).2 ?_
      · rw [hp]
        intro h
        have := h.2
        unfold u32 U32 at this
        omega
      · rw [hd, hlen]
        intro h
        have := h.1
        unfold u32 U32 at this
        omega
    rw [hk, hk0]
    have : many_fonts.getD 0 "" = "a" := by
      unfold many_fonts
      exact getD_zero_replicate_append "a" "" ["p"] 2147483648 (by omega)
    rw [this]

end FontCatalog

end PixelReader
